import Mathlib

/-!
SDP raw parser (`pkg/sdp/raw.go`) — shallow embedding and verified properties

Go strings are embedded as lists of Unicode code points (`Str`), i.e. the
embedding covers inputs that are valid UTF-8.  All separators used by the
parser are ASCII, so splitting on code points and splitting on bytes agree on
such inputs.  Go `int` is the 64-bit signed integer, embedded as `Int`
together with the range check performed by `strconv.Atoi`.
-/

namespace Sdp

/-- Go `string`, as a list of code points. -/
abbrev Str := List Char

deriving instance DecidableEq for Except

/-! ## Go standard library functions used by `raw.go` -/

/-- `strings.HasPrefix(s, prefix)`. -/
def HasPrefix (s pre : Str) : Bool :=
  pre.isPrefixOf s

/-- `strings.TrimPrefix(s, prefix)`. -/
def TrimPrefix (s pre : Str) : Str :=
  if HasPrefix s pre then s.drop pre.length else s

/-- `strings.Index(s, sep)`: position of the first occurrence of `sep` in `s`,
`none` standing for Go's `-1`. -/
def Index : Str → Str → Option Nat
  | [], sep => if sep = [] then some 0 else none
  | c :: cs, sep =>
    if HasPrefix (c :: cs) sep then some 0 else (Index cs sep).map (· + 1)

/-- The cutting loop of `strings.genSplit` (with `sepSave = 0`): the first
argument is the number of cuts still allowed (`n - 1 - i` in the Go code). -/
def genSplit (sep : Str) : Nat → Str → List Str
  | 0, s => [s]
  | k + 1, s =>
    match Index s sep with
    | none => [s]
    | some m => s.take m :: genSplit sep k (s.drop (m + sep.length))

/-- `strings.SplitN(s, sep, n)` for a non-empty `sep` and `n ≥ 0`
(`n` is clamped to `len(s) + 1` as in `genSplit`). -/
def SplitN (s sep : Str) (n : Nat) : List Str :=
  if n = 0 then [] else genSplit sep (min n (s.length + 1) - 1) s

/-- `strings.Split(s, sep)` for a non-empty `sep`.  Go cuts `Count(s, sep)`
times; since every cut consumes at least one character and the loop stops
as soon as `Index` fails, allowing `len(s)` cuts yields the same pieces. -/
def Split (s sep : Str) : List Str :=
  genSplit sep s.length s

/-- `unicode.IsSpace`. -/
def isSpace (c : Char) : Bool :=
  let n := c.toNat
  n = 0x09 || n = 0x0A || n = 0x0B || n = 0x0C || n = 0x0D || n = 0x20 ||
  n = 0x85 || n = 0xA0 || n = 0x1680 || (0x2000 ≤ n && n ≤ 0x200A) ||
  n = 0x2028 || n = 0x2029 || n = 0x202F || n = 0x205F || n = 0x3000

/-- `strings.TrimSpace(s)`. -/
def TrimSpace (s : Str) : Str :=
  ((s.dropWhile isSpace).reverse.dropWhile isSpace).reverse

/-- The `Err` field of `*strconv.NumError`. -/
inductive NumErrKind where
  | ErrSyntax
  | ErrRange
  deriving DecidableEq, Repr

/-- Modelled from the spec: the sentinel `ErrSdp` is declared in another file
of package `sdp`; the spec calls it the single "malformed SDP line" error.
`NumError` is `*strconv.NumError` with `Func = "Atoi"`, carrying the offending
text and the cause. -/
inductive SdpError where
  | ErrSdp
  | NumError (Num : Str) (Err : NumErrKind)
  deriving DecidableEq, Repr

/-- Decimal digit test of `strconv.ParseUint` (`'0' <= c && c <= '9'`). -/
def isDigit (c : Char) : Bool :=
  48 ≤ c.toNat && c.toNat ≤ 57

/-- The digit loop of `strconv.ParseUint(s, 10, 64)`; `n` is the value
accumulated so far.  `cutoff = maxUint64/10 + 1`. -/
def parseUintLoop : Str → Nat → Except NumErrKind Nat
  | [], n => .ok n
  | c :: cs, n =>
    if !isDigit c then .error .ErrSyntax
    else if n ≥ (2 ^ 64 - 1) / 10 + 1 then .error .ErrRange
    else
      let n1 := n * 10 + (c.toNat - 48)
      if n1 > 2 ^ 64 - 1 then .error .ErrRange
      else parseUintLoop cs n1

/-- `strconv.ParseUint(s, 10, 64)`. -/
def ParseUint (s : Str) : Except NumErrKind Nat :=
  if s = [] then .error .ErrSyntax else parseUintLoop s 0

/-- `strconv.ParseInt(s, 10, 0)` on a 64-bit platform, error cause only. -/
def ParseInt (s : Str) : Except NumErrKind Int :=
  match s with
  | [] => .error .ErrSyntax
  | c :: cs =>
    let neg := c = '-'
    let body := if c = '+' ∨ c = '-' then cs else c :: cs
    match ParseUint body with
    | .error e => .error e
    | .ok un =>
      if ¬ neg ∧ un ≥ 2 ^ 63 then .error .ErrRange
      else if neg ∧ un > 2 ^ 63 then .error .ErrRange
      else .ok (if neg then - (un : Int) else (un : Int))

/-- `strconv.Atoi(s)`.  Its fast path for short inputs computes the same
result as `ParseInt(s, 10, 0)`; the error is a `*NumError` naming `s`. -/
def Atoi (s : Str) : Except SdpError Int :=
  match ParseInt s with
  | .error e => .error (.NumError s e)
  | .ok n => .ok n

/-! ## Data model (`raw.go` lines 16–45) -/

structure M where
  Media : Str
  deriving DecidableEq, Repr

structure ARtpMap where
  PayloadType : Int
  EncodingName : Str
  ClockRate : Int
  EncodingParameters : Str
  deriving DecidableEq, Repr

/-- Go `map[string]string`, as an association list with unique keys. -/
abbrev StrMap := List (Str × Str)

/-- Map read `m[k]` (with presence). -/
def mapGet (m : StrMap) (k : Str) : Option Str :=
  (m.find? (fun p => p.1 = k)).map (·.2)

/-- Map write `m[k] = v`. -/
def mapSet : StrMap → Str → Str → StrMap
  | [], k, v => [(k, v)]
  | p :: ps, k, v => if p.1 = k then (k, v) :: ps else p :: mapSet ps k v

structure AFmtPBase where
  Format : Int
  Parameters : StrMap
  deriving DecidableEq, Repr

structure AControl where
  Value : Str
  deriving DecidableEq, Repr

structure MediaDesc where
  M : M
  ARtpMap : ARtpMap
  AFmtPBase : Option AFmtPBase
  AControl : AControl
  deriving DecidableEq, Repr

structure RawContext where
  MediaDescList : List MediaDesc
  deriving DecidableEq, Repr

/-! ## String constants of `raw.go` -/

/-- The line delimiter `"\r\n"`. -/
def crlf : Str := "\r\n".toList

/-- The routing prefix `"m="`. -/
def mPrefix : Str := "m=".toList

/-- The routing prefix `"a=rtpmap"`. -/
def rtpmapPrefix : Str := "a=rtpmap".toList

/-- The routing prefix `"a=fmtp"`. -/
def fmtpPrefix : Str := "a=fmtp".toList

/-- The routing prefix `"a=control"`. -/
def controlPrefix : Str := "a=control".toList

/-! ## Line parsers -/

/-- `ParseM` (`raw.go` lines 107–115). -/
def ParseM (s : Str) : Except SdpError M :=
  let ss := TrimPrefix s mPrefix
  let items := Split ss " ".toList
  match items with
  | [] => .error .ErrSdp
  | item0 :: _ => .ok { Media := item0 }

/-- The `switch len(items)` of `ParseARtpMap` (`raw.go` lines 139–153). -/
def rtpMapFields (pt : Int) (items : List Str) : Except SdpError ARtpMap :=
  match items with
  | [i0, i1, i2] =>
    match Atoi i1 with
    | .error e => .error e
    | .ok cr =>
      .ok { PayloadType := pt, EncodingName := i0, ClockRate := cr, EncodingParameters := i2 }
  | [i0, i1] =>
    match Atoi i1 with
    | .error e => .error e
    | .ok cr =>
      .ok { PayloadType := pt, EncodingName := i0, ClockRate := cr, EncodingParameters := [] }
  | _ => .error .ErrSdp

/-- `ParseARtpMap` (`raw.go` lines 118–154). -/
def ParseARtpMap (s : Str) : Except SdpError ARtpMap :=
  match SplitN s ":".toList 2 with
  | [_, v] =>
    match SplitN v " ".toList 2 with
    | [tok, rest] =>
      match Atoi tok with
      | .error e => .error e
      | .ok pt => rtpMapFields pt (SplitN rest "/".toList 3)
    | _ => .error .ErrSdp
  | _ => .error .ErrSdp

/-- The `for _, pp := range items` loop of `ParseAFmtPBase`
(`raw.go` lines 183–194); `ps` is `ret.Parameters`. -/
def fmtpLoop : List Str → StrMap → Except SdpError StrMap
  | [], ps => .ok ps
  | pp :: rest, ps =>
    let pp := TrimSpace pp
    if pp.length ≤ 0 then fmtpLoop rest ps
    else
      match SplitN pp "=".toList 2 with
      | [k, v] => fmtpLoop rest (mapSet ps k v)
      | _ => .error .ErrSdp

/-- `ParseAFmtPBase` (`raw.go` lines 157–197). -/
def ParseAFmtPBase (s : Str) : Except SdpError AFmtPBase :=
  match SplitN s ":".toList 2 with
  | [_, v] =>
    match SplitN v " ".toList 2 with
    | [tok, rest] =>
      match Atoi tok with
      | .error e => .error e
      | .ok f =>
        match fmtpLoop (Split rest ";".toList) [] with
        | .error e => .error e
        | .ok ps => .ok { Format := f, Parameters := ps }
    | _ => .error .ErrSdp
  | _ => .error .ErrSdp

/-- `ParseAControl` (`raw.go` lines 199–206). -/
def ParseAControl (s : Str) : Except SdpError AControl :=
  if ¬ HasPrefix s "a=control:".toList then .error .ErrSdp
  else .ok { Value := TrimPrefix s "a=control:".toList }

/-! ## Document driver (`raw.go` lines 48–105) -/

/-- The loop variables of `ParseSdp2RawContext`: `sdpCtx` and the cursor `md`
(`none` is Go's `nil`). -/
structure LoopState where
  sdpCtx : RawContext
  md : Option MediaDesc
  deriving DecidableEq, Repr

/-- Zero value of `ARtpMap`. -/
def ARtpMap.zero : ARtpMap :=
  { PayloadType := 0, EncodingName := [], ClockRate := 0, EncodingParameters := [] }

/-- Zero value of `AControl`. -/
def AControl.zero : AControl := { Value := [] }

/-- `&MediaDesc{M: m}`. -/
def newMediaDesc (m : M) : MediaDesc :=
  { M := m, ARtpMap := ARtpMap.zero, AFmtPBase := none, AControl := AControl.zero }

/-- `if md != nil { sdpCtx.MediaDescList = append(sdpCtx.MediaDescList, *md) }`. -/
def flush (st : LoopState) : RawContext :=
  match st.md with
  | some md => { MediaDescList := st.sdpCtx.MediaDescList ++ [md] }
  | none => st.sdpCtx

/-- Fourth `if` of the loop body (`a=control`, lines 89–98).  An error carries
the `sdpCtx` returned with it. -/
def bodyControl (st : LoopState) (line : Str) : Except (RawContext × SdpError) LoopState :=
  if HasPrefix line controlPrefix then
    match ParseAControl line with
    | .error e => .error (st.sdpCtx, e)
    | .ok aControl =>
      match st.md with
      | none => .ok st
      | some md => .ok { st with md := some { md with AControl := aControl } }
  else .ok st

/-- Third `if` of the loop body (`a=fmtp`, lines 79–88), followed by the
rest of the body unless it executes `continue`. -/
def bodyFmtp (st : LoopState) (line : Str) : Except (RawContext × SdpError) LoopState :=
  if HasPrefix line fmtpPrefix then
    match ParseAFmtPBase line with
    | .error e => .error (st.sdpCtx, e)
    | .ok aFmtPBase =>
      match st.md with
      | none => .ok st
      | some md => bodyControl { st with md := some { md with AFmtPBase := some aFmtPBase } } line
  else bodyControl st line

/-- Second `if` of the loop body (`a=rtpmap`, lines 69–78), followed by the
rest of the body unless it executes `continue`. -/
def bodyRtpMap (st : LoopState) (line : Str) : Except (RawContext × SdpError) LoopState :=
  if HasPrefix line rtpmapPrefix then
    match ParseARtpMap line with
    | .error e => .error (st.sdpCtx, e)
    | .ok aRtpMap =>
      match st.md with
      | none => .ok st
      | some md => bodyFmtp { st with md := some { md with ARtpMap := aRtpMap } } line
  else bodyFmtp st line

/-- One iteration of the `for _, line := range lines` loop (lines 56–99). -/
def loopBody (st : LoopState) (line : Str) : Except (RawContext × SdpError) LoopState :=
  if HasPrefix line mPrefix then
    match ParseM line with
    | .error e => .error (st.sdpCtx, e)
    | .ok m => bodyRtpMap { sdpCtx := flush st, md := some (newMediaDesc m) } line
  else bodyRtpMap st line

/-- The `for` loop over the lines. -/
def loop : LoopState → List Str → Except (RawContext × SdpError) LoopState
  | st, [] => .ok st
  | st, line :: rest =>
    match loopBody st line with
    | .error r => .error r
    | .ok st1 => loop st1 rest

/-- The driver on an already split input: loop, then the final flush
(lines 100–104).  The result is Go's pair `(RawContext, error)`. -/
def parseLines (lines : List Str) : RawContext × Option SdpError :=
  match loop { sdpCtx := { MediaDescList := [] }, md := none } lines with
  | .error (ctx, e) => (ctx, some e)
  | .ok st => (flush st, none)

/-- `ParseSdp2RawContext` (`raw.go` lines 48–105). -/
def ParseSdp2RawContext (b : Str) : RawContext × Option SdpError :=
  parseLines (Split b crlf)

/-! ## Specification-side vocabulary -/

/-- The text of `s` before the first occurrence of `c` (all of `s` if none). -/
def before (c : Char) (s : Str) : Str :=
  s.takeWhile (fun x => x != c)

/-- The text of `s` after the first occurrence of `c` (empty if none). -/
def after (c : Char) (s : Str) : Str :=
  (s.dropWhile (fun x => x != c)).tail

/-- The first space-delimited field after the two characters `m=` of a line. -/
def mediaField (line : Str) : Str :=
  before ' ' (line.drop 2)

/-- A line is rejected with error `e`: it begins with one of the four routing
prefixes and the sub-parser of that prefix fails on it with `e`. -/
def Rejected (line : Str) (e : SdpError) : Prop :=
  (HasPrefix line mPrefix = true ∧ ParseM line = .error e) ∨
  (HasPrefix line rtpmapPrefix = true ∧ ParseARtpMap line = .error e) ∨
  (HasPrefix line fmtpPrefix = true ∧ ParseAFmtPBase line = .error e) ∨
  (HasPrefix line controlPrefix = true ∧ ParseAControl line = .error e)

/-- Every line beginning with `a=rtpmap`, `a=fmtp` or `a=control` is accepted
by its sub-parser. -/
def AttrsAccepted (lines : List Str) : Prop :=
  ∀ l ∈ lines,
    (HasPrefix l rtpmapPrefix = true → (ParseARtpMap l).isOk = true) ∧
    (HasPrefix l fmtpPrefix = true → (ParseAFmtPBase l).isOk = true) ∧
    (HasPrefix l controlPrefix = true → (ParseAControl l).isOk = true)

instance (lines : List Str) : Decidable (AttrsAccepted lines) := by
  unfold AttrsAccepted; infer_instance

/-- The last line of `block` that begins with `pre`, if any. -/
def lastLine (pre : Str) (block : List Str) : Option Str :=
  (block.filter (fun l => HasPrefix l pre)).getLast?

/-- What a media block's lines determine of its description `d'`, starting
from the description `d` created by its `m=` line: each attribute is the parse
of the last line of its kind, and is left as in `d` when there is none. -/
def BlockResult (d d' : MediaDesc) (block : List Str) : Prop :=
  d'.M = d.M ∧
  (∀ l, lastLine rtpmapPrefix block = some l → ParseARtpMap l = .ok d'.ARtpMap) ∧
  (lastLine rtpmapPrefix block = none → d'.ARtpMap = d.ARtpMap) ∧
  (∀ l, lastLine fmtpPrefix block = some l →
    ∃ v, ParseAFmtPBase l = .ok v ∧ d'.AFmtPBase = some v) ∧
  (lastLine fmtpPrefix block = none → d'.AFmtPBase = d.AFmtPBase) ∧
  (∀ l, lastLine controlPrefix block = some l → ParseAControl l = .ok d'.AControl) ∧
  (lastLine controlPrefix block = none → d'.AControl = d.AControl)

/-- Value of a string of decimal digits, most significant digit first. -/
def digitsValue (s : Str) : Nat :=
  s.foldl (fun n c => n * 10 + (c.toNat - 48)) 0

/-- A base-10 integer literal: an optional sign `+` or `-` followed by one or
more decimal digits. -/
def isBase10Int (s : Str) : Bool :=
  match s with
  | [] => false
  | c :: cs =>
    if c = '+' ∨ c = '-' then !cs.isEmpty && cs.all isDigit
    else (c :: cs).all isDigit

/-- The integer denoted by a base-10 integer literal. -/
def intValue (s : Str) : Int :=
  match s with
  | [] => 0
  | c :: cs =>
    if c = '-' then - (digitsValue cs : Int)
    else if c = '+' then (digitsValue cs : Int)
    else (digitsValue (c :: cs) : Int)

/-- The literal denotes a value of the 64-bit `int` type. -/
def fitsInt (s : Str) : Bool :=
  decide (-(2 : Int) ^ 63 ≤ intValue s) && decide (intValue s ≤ 2 ^ 63 - 1)

/-- The entries of an fmtp parameter list: split on `;`, trim the surrounding
whitespace of each piece, drop the pieces that are then empty. -/
def fmtpEntries (list : Str) : List Str :=
  ((Split list ";".toList).map TrimSpace).filter (fun e => !e.isEmpty)

/-- The mapping described by a parameter list: a name maps to the value of the
last entry bearing that name, an entry being split at its first `=`. -/
def fmtpSpecLookup (list : Str) (k : Str) : Option Str :=
  (((fmtpEntries list).filter (fun e => before '=' e = k)).getLast?).map (after '=')

/-- The error returned, if any. -/
def errOf {α : Type} : Except SdpError α → Option SdpError
  | .error e => some e
  | .ok _ => none

/-- The prefix `"a=control:"` required by `ParseAControl`. -/
def controlColon : Str := "a=control:".toList

/-- One step of the document driver as the specification describes it
(section 4.1, step 3): an exclusive if / else-if dispatch on the line's
prefix, each branch with the discipline parse-or-abort, assign-or-discard. -/
def specBody (st : LoopState) (line : Str) : Except (RawContext × SdpError) LoopState :=
  if HasPrefix line mPrefix then
    match ParseM line with
    | .error e => .error (st.sdpCtx, e)
    | .ok m => .ok { sdpCtx := flush st, md := some (newMediaDesc m) }
  else if HasPrefix line rtpmapPrefix then
    match ParseARtpMap line with
    | .error e => .error (st.sdpCtx, e)
    | .ok a =>
      match st.md with
      | none => .ok st
      | some md => .ok { st with md := some { md with ARtpMap := a } }
  else if HasPrefix line fmtpPrefix then
    match ParseAFmtPBase line with
    | .error e => .error (st.sdpCtx, e)
    | .ok a =>
      match st.md with
      | none => .ok st
      | some md => .ok { st with md := some { md with AFmtPBase := some a } }
  else if HasPrefix line controlPrefix then
    match ParseAControl line with
    | .error e => .error (st.sdpCtx, e)
    | .ok a =>
      match st.md with
      | none => .ok st
      | some md => .ok { st with md := some { md with AControl := a } }
  else .ok st

/-- The specification's loop over the lines (section 4.1, step 3). -/
def specLoop : LoopState → List Str → Except (RawContext × SdpError) LoopState
  | st, [] => .ok st
  | st, line :: rest =>
    match specBody st line with
    | .error r => .error r
    | .ok st1 => specLoop st1 rest

/-- The specification's document driver (section 4.1): split on `\r\n`, run
the exclusive dispatch over the lines, append the open description. -/
def specParse (b : Str) : RawContext × Option SdpError :=
  match specLoop { sdpCtx := { MediaDescList := [] }, md := none } (Split b crlf) with
  | .error (ctx, e) => (ctx, some e)
  | .ok st => (flush st, none)

/-- The number of routing prefixes a line begins with. -/
def prefixCount (line : Str) : Nat :=
  (if HasPrefix line mPrefix then 1 else 0) + (if HasPrefix line rtpmapPrefix then 1 else 0) +
  (if HasPrefix line fmtpPrefix then 1 else 0) + (if HasPrefix line controlPrefix then 1 else 0)

/-- `strings.Join(lines, "\r\n")`: the text whose lines are `lines`. -/
def joinCrlf : List Str → Str
  | [] => []
  | [x] => x
  | x :: y :: rest => x ++ crlf ++ joinCrlf (y :: rest)

/-- The loop state `st` with the descriptions `p` put in front of its
`sdpCtx.MediaDescList`. -/
def addCtx (p : List MediaDesc) (st : LoopState) : LoopState :=
  { sdpCtx := { MediaDescList := p ++ st.sdpCtx.MediaDescList }, md := st.md }

/-! ## Lemmas on the string functions -/

theorem isOk_exists {ε α : Type} {x : Except ε α} (h : x.isOk = true) : ∃ v, x = .ok v := by
  cases x with
  | error e => simp [Except.isOk, Except.toBool] at h
  | ok v => exact ⟨v, rfl⟩

theorem isOk_of_eq {ε α : Type} {x : Except ε α} {v : α} (h : x = .ok v) : x.isOk = true := by
  subst h; rfl

theorem HasPrefix_iff (s p : Str) : HasPrefix s p = true ↔ p <+: s := by
  unfold HasPrefix; exact List.isPrefixOf_iff_prefix

theorem before_append_after (c : Char) (s : Str) (h : c ∈ s) :
    s = before c s ++ c :: after c s := by
  induction s with
  | nil => cases h
  | cons x xs ih =>
    by_cases hx : x = c
    · subst hx; simp [before, after]
    · have hc : c ∈ xs := by
        rcases List.mem_cons.1 h with h | h
        · exact absurd h.symm hx
        · exact h
      have := ih hc
      simp only [before, after] at this ⊢
      simp [List.takeWhile_cons, List.dropWhile_cons, hx]
      exact this

theorem before_not_mem (c : Char) (s : Str) : c ∉ before c s := by
  induction s with
  | nil => simp [before]
  | cons x xs ih =>
    by_cases hx : x = c
    · subst hx; simp [before]
    · simp only [before] at ih ⊢
      simp [List.takeWhile_cons, hx]
      exact ⟨fun h => hx h.symm, ih⟩

theorem before_eq_of_not_mem (c : Char) (s : Str) (h : c ∉ s) : before c s = s := by
  induction s with
  | nil => simp [before]
  | cons x xs ih =>
    have hx : x ≠ c := fun e => h (by simp [e])
    have hxs : c ∉ xs := fun e => h (by simp [e])
    simp only [before] at ih ⊢
    simp [List.takeWhile_cons, hx, ih hxs]

theorem before_append (c : Char) (a b : Str) (h : c ∉ a) :
    before c (a ++ c :: b) = a := by
  induction a with
  | nil => simp [before]
  | cons x xs ih =>
    have hx : x ≠ c := fun e => h (by simp [e])
    have hxs : c ∉ xs := fun e => h (by simp [e])
    simp only [before] at ih ⊢
    simp [List.takeWhile_cons, hx, ih hxs]

theorem after_append (c : Char) (a b : Str) (h : c ∉ a) :
    after c (a ++ c :: b) = b := by
  induction a with
  | nil => simp [after]
  | cons x xs ih =>
    have hx : x ≠ c := fun e => h (by simp [e])
    have hxs : c ∉ xs := fun e => h (by simp [e])
    simp only [after] at ih ⊢
    simp [List.dropWhile_cons, hx, ih hxs]

theorem Index_single (c : Char) (s : Str) :
    Index s [c] = if c ∈ s then some (before c s).length else none := by
  induction s with
  | nil => simp [Index]
  | cons x xs ih =>
    by_cases hx : x = c
    · subst hx; simp [Index, HasPrefix, before]
    · have hx' : ¬ c = x := fun e => hx e.symm
      simp only [Index, HasPrefix, List.isPrefixOf, ih]
      by_cases hc : c ∈ xs
      · simp [hc, hx, hx', before, List.takeWhile_cons]
      · simp [hc, hx, hx']

theorem take_before (c : Char) (s : Str) : s.take (before c s).length = before c s := by
  induction s with
  | nil => simp [before]
  | cons x xs ih =>
    by_cases hx : x = c
    · subst hx; simp [before]
    · simp only [before] at ih ⊢
      simp [List.takeWhile_cons, hx, ih]

theorem drop_before (c : Char) (s : Str) : s.drop ((before c s).length + 1) = after c s := by
  induction s with
  | nil => simp [before, after]
  | cons x xs ih =>
    by_cases hx : x = c
    · subst hx; simp [before, after]
    · simp only [before, after] at ih ⊢
      simp [List.takeWhile_cons, List.dropWhile_cons, hx, ih]

theorem genSplit_single_succ (c : Char) (k : Nat) (s : Str) :
    genSplit [c] (k + 1) s =
      if c ∈ s then before c s :: genSplit [c] k (after c s) else [s] := by
  simp only [genSplit, Index_single]
  by_cases hc : c ∈ s
  · simp [hc, take_before, drop_before]
  · simp [hc]


theorem after_length_lt (c : Char) (s : Str) (h : c ∈ s) : (after c s).length < s.length := by
  have := congrArg List.length (before_append_after c s h)
  simp at this; omega

theorem genSplit_zero (sep s : Str) : genSplit sep 0 s = [s] := rfl

theorem SplitN_two (c : Char) (s : Str) :
    SplitN s [c] 2 = if c ∈ s then [before c s, after c s] else [s] := by
  cases s with
  | nil => simp [SplitN, genSplit]
  | cons x xs =>
    have : min 2 ((x :: xs).length + 1) - 1 = 0 + 1 := by simp
    simp only [SplitN, this]
    rw [genSplit_single_succ, genSplit_zero]
    simp

theorem SplitN_three (c : Char) (s : Str) :
    SplitN s [c] 3 =
      if c ∈ s then
        if c ∈ after c s then [before c s, before c (after c s), after c (after c s)]
        else [before c s, after c s]
      else [s] := by
  cases s with
  | nil => simp [SplitN, genSplit]
  | cons x xs =>
    cases xs with
    | nil =>
      have : min 3 ([x].length + 1) - 1 = 0 + 1 := by simp
      simp only [SplitN, this]
      rw [genSplit_single_succ, genSplit_zero]
      by_cases hx : c = x
      · subst hx; simp [after]
      · simp [hx]
    | cons y ys =>
      have : min 3 ((x :: y :: ys).length + 1) - 1 = 0 + 1 + 1 := by simp
      simp only [SplitN, this]
      rw [genSplit_single_succ, genSplit_single_succ, genSplit_zero]
      by_cases h1 : c ∈ x :: y :: ys <;> by_cases h2 : c ∈ after c (x :: y :: ys) <;>
        simp [h1, h2]

theorem Split_single_head (c : Char) (s : Str) :
    ∃ t, Split s [c] = before c s :: t := by
  cases s with
  | nil => exact ⟨[], by simp [Split, genSplit, before]⟩
  | cons x xs =>
    simp only [Split, List.length_cons, genSplit_single_succ]
    by_cases hc : c ∈ x :: xs
    · exact ⟨genSplit [c] xs.length (after c (x :: xs)), by simp only [hc, if_true]⟩
    · exact ⟨[], by simp only [hc, if_false, before_eq_of_not_mem c _ hc]⟩

/-- `ParseM` on any line. -/
theorem ParseM_eq (s : Str) :
    ParseM s = .ok { Media := before ' ' (TrimPrefix s mPrefix) } := by
  obtain ⟨t, ht⟩ := Split_single_head ' ' (TrimPrefix s mPrefix)
  simp only [ParseM]
  have : " ".toList = [' '] := rfl
  rw [this, ht]

theorem ParseM_of_prefix (line : Str) (h : HasPrefix line mPrefix = true) :
    ParseM line = .ok { Media := mediaField line } := by
  rw [ParseM_eq]
  simp only [TrimPrefix, h, mediaField, if_true]
  rfl

/-! ## The routing prefixes -/

theorem prefix_m_excl (line : Str) (h : HasPrefix line mPrefix = true) :
    HasPrefix line rtpmapPrefix = false ∧ HasPrefix line fmtpPrefix = false ∧
    HasPrefix line controlPrefix = false := by
  match line, h with
  | [], h => simp [HasPrefix, mPrefix, rtpmapPrefix, fmtpPrefix, controlPrefix] at h
  | c :: t, h =>
    have hc : c = 'm' := by
      simp [HasPrefix, List.isPrefixOf, mPrefix, rtpmapPrefix, fmtpPrefix, controlPrefix] at h; exact h.1.symm
    subst hc
    simp [HasPrefix, List.isPrefixOf, mPrefix, rtpmapPrefix, fmtpPrefix, controlPrefix]

theorem prefix_rtpmap_excl (line : Str) (h : HasPrefix line rtpmapPrefix = true) :
    HasPrefix line mPrefix = false ∧ HasPrefix line fmtpPrefix = false ∧
    HasPrefix line controlPrefix = false := by
  match line, h with
  | [], h => simp [HasPrefix, mPrefix, rtpmapPrefix, fmtpPrefix, controlPrefix] at h
  | [_], h => simp [HasPrefix, List.isPrefixOf, mPrefix, rtpmapPrefix, fmtpPrefix, controlPrefix] at h
  | [_, _], h => simp [HasPrefix, List.isPrefixOf, mPrefix, rtpmapPrefix, fmtpPrefix, controlPrefix] at h
  | c0 :: c1 :: c2 :: t, h =>
    simp only [HasPrefix, mPrefix, rtpmapPrefix, fmtpPrefix, controlPrefix, String.toList,
      List.isPrefixOf, Bool.and_eq_true, beq_iff_eq] at h
    obtain ⟨h0, h1, h2, _⟩ := h
    subst h0 h1 h2
    simp [HasPrefix, List.isPrefixOf, mPrefix, rtpmapPrefix, fmtpPrefix, controlPrefix]

theorem prefix_fmtp_excl (line : Str) (h : HasPrefix line fmtpPrefix = true) :
    HasPrefix line mPrefix = false ∧ HasPrefix line rtpmapPrefix = false ∧
    HasPrefix line controlPrefix = false := by
  match line, h with
  | [], h => simp [HasPrefix, mPrefix, rtpmapPrefix, fmtpPrefix, controlPrefix] at h
  | [_], h => simp [HasPrefix, List.isPrefixOf, mPrefix, rtpmapPrefix, fmtpPrefix, controlPrefix] at h
  | [_, _], h => simp [HasPrefix, List.isPrefixOf, mPrefix, rtpmapPrefix, fmtpPrefix, controlPrefix] at h
  | c0 :: c1 :: c2 :: t, h =>
    simp only [HasPrefix, mPrefix, rtpmapPrefix, fmtpPrefix, controlPrefix, String.toList,
      List.isPrefixOf, Bool.and_eq_true, beq_iff_eq] at h
    obtain ⟨h0, h1, h2, _⟩ := h
    subst h0 h1 h2
    simp [HasPrefix, List.isPrefixOf, mPrefix, rtpmapPrefix, fmtpPrefix, controlPrefix]

theorem prefix_control_excl (line : Str) (h : HasPrefix line controlPrefix = true) :
    HasPrefix line mPrefix = false ∧ HasPrefix line rtpmapPrefix = false ∧
    HasPrefix line fmtpPrefix = false := by
  match line, h with
  | [], h => simp [HasPrefix, mPrefix, rtpmapPrefix, fmtpPrefix, controlPrefix] at h
  | [_], h => simp [HasPrefix, List.isPrefixOf, mPrefix, rtpmapPrefix, fmtpPrefix, controlPrefix] at h
  | [_, _], h => simp [HasPrefix, List.isPrefixOf, mPrefix, rtpmapPrefix, fmtpPrefix, controlPrefix] at h
  | c0 :: c1 :: c2 :: t, h =>
    simp only [HasPrefix, mPrefix, rtpmapPrefix, fmtpPrefix, controlPrefix, String.toList,
      List.isPrefixOf, Bool.and_eq_true, beq_iff_eq] at h
    obtain ⟨h0, h1, h2, _⟩ := h
    subst h0 h1 h2
    simp [HasPrefix, List.isPrefixOf, mPrefix, rtpmapPrefix, fmtpPrefix, controlPrefix]


/-! ## One loop iteration, by kind of line -/

theorem loopBody_m (st : LoopState) (line : Str) (h : HasPrefix line mPrefix = true) :
    loopBody st line =
      .ok { sdpCtx := flush st, md := some (newMediaDesc { Media := mediaField line }) } := by
  obtain ⟨h1, h2, h3⟩ := prefix_m_excl line h
  simp only [loopBody, bodyRtpMap, bodyFmtp, bodyControl, h, h1, h2, h3,
    ParseM_of_prefix line h, if_true, Bool.false_eq_true, if_false]

theorem loopBody_rtpmap (st : LoopState) (line : Str)
    (h : HasPrefix line rtpmapPrefix = true) :
    loopBody st line =
      match ParseARtpMap line with
      | .error e => .error (st.sdpCtx, e)
      | .ok a => .ok { st with md := st.md.map (fun md => { md with ARtpMap := a }) } := by
  obtain ⟨h1, h2, h3⟩ := prefix_rtpmap_excl line h
  simp only [loopBody, bodyRtpMap, h, h1, if_true, Bool.false_eq_true, if_false]
  cases ParseARtpMap line with
  | error e => rfl
  | ok a =>
    cases hmd : st.md with
    | none => cases st; simp_all
    | some md =>
      simp only [bodyFmtp, bodyControl, h2, h3, Bool.false_eq_true, if_false, Option.map_some']

theorem loopBody_fmtp (st : LoopState) (line : Str)
    (h : HasPrefix line fmtpPrefix = true) :
    loopBody st line =
      match ParseAFmtPBase line with
      | .error e => .error (st.sdpCtx, e)
      | .ok a => .ok { st with md := st.md.map (fun md => { md with AFmtPBase := some a }) } := by
  obtain ⟨h1, h2, h3⟩ := prefix_fmtp_excl line h
  simp only [loopBody, bodyRtpMap, bodyFmtp, h, h1, h2, if_true, Bool.false_eq_true, if_false]
  cases ParseAFmtPBase line with
  | error e => rfl
  | ok a =>
    cases hmd : st.md with
    | none => cases st; simp_all
    | some md =>
      simp only [bodyControl, h3, Bool.false_eq_true, if_false, Option.map_some']

theorem loopBody_control (st : LoopState) (line : Str)
    (h : HasPrefix line controlPrefix = true) :
    loopBody st line =
      match ParseAControl line with
      | .error e => .error (st.sdpCtx, e)
      | .ok a => .ok { st with md := st.md.map (fun md => { md with AControl := a }) } := by
  obtain ⟨h1, h2, h3⟩ := prefix_control_excl line h
  simp only [loopBody, bodyRtpMap, bodyFmtp, bodyControl, h, h1, h2, h3, if_true,
    Bool.false_eq_true, if_false]
  cases ParseAControl line with
  | error e => rfl
  | ok a =>
    cases hmd : st.md with
    | none => cases st; simp_all
    | some md => simp

theorem loopBody_other (st : LoopState) (line : Str)
    (h0 : HasPrefix line mPrefix = false)
    (h1 : HasPrefix line rtpmapPrefix = false)
    (h2 : HasPrefix line fmtpPrefix = false)
    (h3 : HasPrefix line controlPrefix = false) :
    loopBody st line = .ok st := by
  simp only [loopBody, bodyRtpMap, bodyFmtp, bodyControl, h0, h1, h2, h3,
    Bool.false_eq_true, if_false]

/-- The four kinds of line. -/
theorem line_cases (line : Str) :
    HasPrefix line mPrefix = true ∨ HasPrefix line rtpmapPrefix = true ∨
    HasPrefix line fmtpPrefix = true ∨ HasPrefix line controlPrefix = true ∨
    (HasPrefix line mPrefix = false ∧ HasPrefix line rtpmapPrefix = false ∧
      HasPrefix line fmtpPrefix = false ∧ HasPrefix line controlPrefix = false) := by
  cases HasPrefix line mPrefix <;> cases HasPrefix line rtpmapPrefix <;>
    cases HasPrefix line fmtpPrefix <;> cases HasPrefix line controlPrefix <;> simp

theorem loop_nil (st : LoopState) : loop st [] = .ok st := rfl

theorem loop_cons (st : LoopState) (line : Str) (rest : List Str) :
    loop st (line :: rest) =
      match loopBody st line with
      | .error r => .error r
      | .ok st1 => loop st1 rest := rfl

theorem loop_append (st : LoopState) (l1 l2 : List Str) :
    loop st (l1 ++ l2) =
      match loop st l1 with
      | .error r => .error r
      | .ok st1 => loop st1 l2 := by
  induction l1 generalizing st with
  | nil => rfl
  | cons x xs ih =>
    simp only [List.cons_append, loop_cons]
    cases loopBody st x with
    | error r => rfl
    | ok st1 => exact ih st1


/-! ## The driver: media types in input order -/

theorem flush_map_md (st : LoopState) (f : MediaDesc → MediaDesc)
    (hf : ∀ d, (f d).M = d.M) :
    (flush { st with md := st.md.map f }).MediaDescList.map (fun d => d.M.Media) =
      (flush st).MediaDescList.map (fun d => d.M.Media) := by
  cases st with
  | mk ctx md =>
    cases md with
    | none => rfl
    | some d => simp [flush, hf]

theorem loopBody_media (st : LoopState) (line : Str) (h : AttrsAccepted [line]) :
    ∃ st1, loopBody st line = .ok st1 ∧
      (flush st1).MediaDescList.map (fun d => d.M.Media) =
        (flush st).MediaDescList.map (fun d => d.M.Media) ++
          ([line].filter (fun l => HasPrefix l mPrefix)).map mediaField := by
  obtain ⟨ha, hb, hc⟩ := h line (List.mem_singleton.2 rfl)
  rcases line_cases line with hm | hr | hf | hcn | ⟨h0, h1, h2, h3⟩
  · refine ⟨_, loopBody_m st line hm, ?_⟩
    simp [flush, hm, newMediaDesc]
  · obtain ⟨v, hv⟩ := isOk_exists (ha hr)
    have h0 := (prefix_rtpmap_excl line hr).1
    refine ⟨_, by rw [loopBody_rtpmap st line hr, hv], ?_⟩
    rw [flush_map_md st (fun md => { md with ARtpMap := v }) (fun _ => rfl)]
    simp [h0]
  · obtain ⟨v, hv⟩ := isOk_exists (hb hf)
    have h0 := (prefix_fmtp_excl line hf).1
    refine ⟨_, by rw [loopBody_fmtp st line hf, hv], ?_⟩
    rw [flush_map_md st (fun md => { md with AFmtPBase := some v }) (fun _ => rfl)]
    simp [h0]
  · obtain ⟨v, hv⟩ := isOk_exists (hc hcn)
    have h0 := (prefix_control_excl line hcn).1
    refine ⟨_, by rw [loopBody_control st line hcn, hv], ?_⟩
    rw [flush_map_md st (fun md => { md with AControl := v }) (fun _ => rfl)]
    simp [h0]
  · refine ⟨st, loopBody_other st line h0 h1 h2 h3, ?_⟩
    simp [h0]

theorem loop_media (lines : List Str) (st : LoopState) (h : AttrsAccepted lines) :
    ∃ st1, loop st lines = .ok st1 ∧
      (flush st1).MediaDescList.map (fun d => d.M.Media) =
        (flush st).MediaDescList.map (fun d => d.M.Media) ++
          (lines.filter (fun l => HasPrefix l mPrefix)).map mediaField := by
  induction lines generalizing st with
  | nil => exact ⟨st, rfl, by simp⟩
  | cons x xs ih =>
    have hx : AttrsAccepted [x] := fun l hl => h l (by
      rw [List.mem_singleton.1 hl]; exact List.mem_cons_self _ _)
    have hxs : AttrsAccepted xs := fun l hl => h l (List.mem_cons_of_mem _ hl)
    obtain ⟨st1, h1, e1⟩ := loopBody_media st x hx
    obtain ⟨st2, h2, e2⟩ := ih st1 hxs
    refine ⟨st2, by rw [loop_cons, h1]; exact h2, ?_⟩
    rw [e2, e1, List.append_assoc, ← List.map_append, ← List.filter_append]
    rfl

/-- C1: when every attribute line (`a=rtpmap`, `a=fmtp`, `a=control`) of the
input is accepted by its sub-parser, `ParseSdp2RawContext` returns no error and
one media description per `m=` line, in input order, whose `M.Media` is the
first space-delimited field after `m=` of that line. -/
theorem C1_media_descriptions_in_order (b : Str)
    (h : AttrsAccepted (Split b crlf)) :
    (ParseSdp2RawContext b).2 = none ∧
    (ParseSdp2RawContext b).1.MediaDescList.map (fun d => d.M.Media) =
      ((Split b crlf).filter (fun l => HasPrefix l mPrefix)).map mediaField := by
  obtain ⟨st1, h1, e1⟩ := loop_media _ { sdpCtx := { MediaDescList := [] }, md := none } h
  have hp : ParseSdp2RawContext b = (flush st1, none) := by
    simp only [ParseSdp2RawContext, parseLines, h1]
  rw [hp]
  exact ⟨rfl, by rw [e1]; rfl⟩


/-- C1 at a concrete two-stream description. -/
theorem C1_witness :
    AttrsAccepted (Split "v=0\r\nm=video 0 RTP/AVP 96\r\na=rtpmap:96 H264/90000\r\nm=audio 0 RTP/AVP 97".toList crlf) ∧
    (ParseSdp2RawContext "v=0\r\nm=video 0 RTP/AVP 96\r\na=rtpmap:96 H264/90000\r\nm=audio 0 RTP/AVP 97".toList).2 = none ∧
    (ParseSdp2RawContext "v=0\r\nm=video 0 RTP/AVP 96\r\na=rtpmap:96 H264/90000\r\nm=audio 0 RTP/AVP 97".toList).1.MediaDescList.map
        (fun d => d.M.Media) = ["video".toList, "audio".toList] :=
  ⟨by decide, C1_media_descriptions_in_order _ (by decide)⟩


/-! ## The driver: attributes of one media block -/

theorem lastLine_nil (p : Str) : lastLine p [] = none := rfl

theorem lastLine_concat (p : Str) (init : List Str) (l : Str) :
    lastLine p (init ++ [l]) = if HasPrefix l p = true then some l else lastLine p init := by
  unfold lastLine
  rw [List.filter_append]
  by_cases h : HasPrefix l p = true
  · simp [h, List.filter_cons]
  · simp [h, List.filter_cons]

theorem loop_concat (st : LoopState) (init : List Str) (l : Str) :
    loop st (init ++ [l]) =
      match loop st init with
      | .error r => .error r
      | .ok st1 => loopBody st1 l := by
  rw [loop_append]
  cases loop st init with
  | error r => rfl
  | ok st1 =>
    simp only [loop_cons, loop_nil]
    cases loopBody st1 l <;> rfl

theorem loop_ok_append {st st2 : LoopState} {l1 l2 : List Str}
    (h : loop st (l1 ++ l2) = .ok st2) :
    ∃ st1, loop st l1 = .ok st1 ∧ loop st1 l2 = .ok st2 := by
  rw [loop_append] at h
  cases h1 : loop st l1 with
  | error r => rw [h1] at h; cases h
  | ok st1 => rw [h1] at h; exact ⟨st1, rfl, h⟩

theorem BlockResult_refl (d : MediaDesc) : BlockResult d d [] := by
  refine ⟨rfl, ?_, fun _ => rfl, ?_, fun _ => rfl, ?_, fun _ => rfl⟩ <;>
    (intro l h; simp [lastLine_nil] at h)

/-- Lines of a block (no `m=` line among them) only touch the cursor. -/
theorem loop_block (block : List Str) (ctx : RawContext) (d : MediaDesc) (st1 : LoopState)
    (hb : ∀ l ∈ block, HasPrefix l mPrefix = false)
    (h : loop { sdpCtx := ctx, md := some d } block = .ok st1) :
    ∃ d1, st1 = { sdpCtx := ctx, md := some d1 } ∧ BlockResult d d1 block := by
  induction block using List.reverseRecOn generalizing st1 with
  | nil =>
    simp only [loop_nil, Except.ok.injEq] at h
    exact ⟨d, h.symm, BlockResult_refl d⟩
  | append_singleton init l ih =>
    rw [loop_concat] at h
    cases h0 : loop { sdpCtx := ctx, md := some d } init with
    | error r => rw [h0] at h; cases h
    | ok st0 =>
      rw [h0] at h
      obtain ⟨d0, hst0, hm, hr1, hr2, hf1, hf2, hc1, hc2⟩ :=
        ih st0 (fun x hx => hb x (List.mem_append_left _ hx)) h0
      subst hst0
      replace h : loopBody { sdpCtx := ctx, md := some d0 } l = .ok st1 := h
      have hl : HasPrefix l mPrefix = false := hb l (by simp)
      rcases line_cases l with hm' | hr | hf | hcn | ⟨_, h1, h2, h3⟩
      · rw [hl] at hm'; cases hm'
      · obtain ⟨_, e2, e3⟩ := prefix_rtpmap_excl l hr
        rw [loopBody_rtpmap _ l hr] at h
        cases hp : ParseARtpMap l with
        | error e => rw [hp] at h; cases h
        | ok a =>
          rw [hp] at h
          simp only [Option.map_some', Except.ok.injEq] at h
          refine ⟨_, h.symm, hm, ?_, ?_, ?_, ?_, ?_, ?_⟩ <;>
            simp only [lastLine_concat, hr, e2, e3, if_true, Bool.false_eq_true, if_false]
          · intro x hx; cases hx; exact hp
          · intro hx; cases hx
          · exact hf1
          · exact hf2
          · exact hc1
          · exact hc2
      · obtain ⟨_, e2, e3⟩ := prefix_fmtp_excl l hf
        rw [loopBody_fmtp _ l hf] at h
        cases hp : ParseAFmtPBase l with
        | error e => rw [hp] at h; cases h
        | ok a =>
          rw [hp] at h
          simp only [Option.map_some', Except.ok.injEq] at h
          refine ⟨_, h.symm, hm, ?_, ?_, ?_, ?_, ?_, ?_⟩ <;>
            simp only [lastLine_concat, hf, e2, e3, if_true, Bool.false_eq_true, if_false]
          · exact hr1
          · exact hr2
          · intro x hx; cases hx; exact ⟨a, hp, rfl⟩
          · intro hx; cases hx
          · exact hc1
          · exact hc2
      · obtain ⟨_, e2, e3⟩ := prefix_control_excl l hcn
        rw [loopBody_control _ l hcn] at h
        cases hp : ParseAControl l with
        | error e => rw [hp] at h; cases h
        | ok a =>
          rw [hp] at h
          simp only [Option.map_some', Except.ok.injEq] at h
          refine ⟨_, h.symm, hm, ?_, ?_, ?_, ?_, ?_, ?_⟩ <;>
            simp only [lastLine_concat, hcn, e2, e3, if_true, Bool.false_eq_true, if_false]
          · exact hr1
          · exact hr2
          · exact hf1
          · exact hf2
          · intro x hx; cases hx; exact hp
          · intro hx; cases hx
      · rw [loopBody_other _ l hl h1 h2 h3] at h
        simp only [Except.ok.injEq] at h
        refine ⟨d0, h.symm, hm, ?_, ?_, ?_, ?_, ?_, ?_⟩ <;>
          simp only [lastLine_concat, h1, h2, h3, Bool.false_eq_true, if_false]
        · exact hr1
        · exact hr2
        · exact hf1
        · exact hf2
        · exact hc1
        · exact hc2


theorem loopBody_ok_accepted {st st1 : LoopState} {line : Str}
    (h : loopBody st line = .ok st1) : AttrsAccepted [line] := by
  intro l hl
  rw [List.mem_singleton.1 hl]
  refine ⟨fun hp => ?_, fun hp => ?_, fun hp => ?_⟩
  · rw [loopBody_rtpmap st line hp] at h
    cases hq : ParseARtpMap line with
    | error e => rw [hq] at h; cases h
    | ok v => rfl
  · rw [loopBody_fmtp st line hp] at h
    cases hq : ParseAFmtPBase line with
    | error e => rw [hq] at h; cases h
    | ok v => rfl
  · rw [loopBody_control st line hp] at h
    cases hq : ParseAControl line with
    | error e => rw [hq] at h; cases h
    | ok v => rfl

theorem loop_ok_accepted {lines : List Str} {st st1 : LoopState}
    (h : loop st lines = .ok st1) : AttrsAccepted lines := by
  induction lines generalizing st with
  | nil => intro l hl; cases hl
  | cons x xs ih =>
    rw [loop_cons] at h
    cases hx : loopBody st x with
    | error r => rw [hx] at h; cases h
    | ok st0 =>
      rw [hx] at h
      intro l hl
      rcases List.mem_cons.1 hl with e | hl
      · exact loopBody_ok_accepted hx l (by rw [e]; exact List.mem_singleton.2 rfl)
      · exact ih h l hl

theorem loop_ok_media {lines : List Str} {st st1 : LoopState}
    (h : loop st lines = .ok st1) :
    (flush st1).MediaDescList.map (fun d => d.M.Media) =
      (flush st).MediaDescList.map (fun d => d.M.Media) ++
        (lines.filter (fun l => HasPrefix l mPrefix)).map mediaField := by
  obtain ⟨st2, h2, e2⟩ := loop_media lines st (loop_ok_accepted h)
  rw [h] at h2
  cases h2
  exact e2

theorem loopBody_ctx_grows {st st1 : LoopState} {line : Str}
    (h : loopBody st line = .ok st1) :
    st.sdpCtx.MediaDescList <+: st1.sdpCtx.MediaDescList := by
  rcases line_cases line with hm | hr | hf | hcn | ⟨h0, h1, h2, h3⟩
  · rw [loopBody_m st line hm] at h
    cases h
    cases st with
    | mk ctx md =>
      cases md with
      | none => exact List.prefix_refl _
      | some d => exact List.prefix_append _ _
  · rw [loopBody_rtpmap st line hr] at h
    cases hq : ParseARtpMap line with
    | error e => rw [hq] at h; cases h
    | ok v => rw [hq] at h; cases h; exact List.prefix_refl _
  · rw [loopBody_fmtp st line hf] at h
    cases hq : ParseAFmtPBase line with
    | error e => rw [hq] at h; cases h
    | ok v => rw [hq] at h; cases h; exact List.prefix_refl _
  · rw [loopBody_control st line hcn] at h
    cases hq : ParseAControl line with
    | error e => rw [hq] at h; cases h
    | ok v => rw [hq] at h; cases h; exact List.prefix_refl _
  · rw [loopBody_other st line h0 h1 h2 h3] at h
    cases h; exact List.prefix_refl _

theorem loop_ctx_grows {lines : List Str} {st st1 : LoopState}
    (h : loop st lines = .ok st1) :
    st.sdpCtx.MediaDescList <+: st1.sdpCtx.MediaDescList := by
  induction lines generalizing st with
  | nil => cases h; exact List.prefix_refl _
  | cons x xs ih =>
    rw [loop_cons] at h
    cases hx : loopBody st x with
    | error r => rw [hx] at h; cases h
    | ok st0 =>
      rw [hx] at h
      exact (loopBody_ctx_grows hx).trans (ih h)

theorem ctx_prefix_flush (st : LoopState) :
    st.sdpCtx.MediaDescList <+: (flush st).MediaDescList := by
  cases st with
  | mk ctx md =>
    cases md with
    | none => exact List.prefix_refl _
    | some d => exact List.prefix_append _ _

/-- Once a block is closed (end of input, or a following `m=` line), its
description stays in the result at the position where it was flushed. -/
theorem loop_closed_block {post : List Str} {ctx : RawContext} {d : MediaDesc}
    {st1 : LoopState}
    (hpost : ∀ l, post.head? = some l → HasPrefix l mPrefix = true)
    (h : loop { sdpCtx := ctx, md := some d } post = .ok st1) :
    (flush st1).MediaDescList[ctx.MediaDescList.length]? = some d := by
  have key : ctx.MediaDescList ++ [d] <+: (flush st1).MediaDescList := by
    cases post with
    | nil => cases h; exact List.prefix_refl _
    | cons x xs =>
      have hx := hpost x rfl
      rw [loop_cons, loopBody_m _ x hx] at h
      exact (loop_ctx_grows h).trans (ctx_prefix_flush st1)
  obtain ⟨t, ht⟩ := key
  rw [← ht, List.append_assoc, List.getElem?_append_right (Nat.le_refl _)]
  simp


theorem parseLines_ok {lines : List Str} {r : RawContext}
    (h : parseLines lines = (r, none)) :
    ∃ st, loop { sdpCtx := { MediaDescList := [] }, md := none } lines = .ok st ∧
      flush st = r := by
  unfold parseLines at h
  cases hl : loop { sdpCtx := { MediaDescList := [] }, md := none } lines with
  | error p => rw [hl] at h; cases p; cases h
  | ok st => rw [hl] at h; cases h; exact ⟨st, rfl, rfl⟩

/-- The description of the block opened by `mline`, in a successful run. -/
theorem loop_block_desc {pre block post : List Str} {mline : Str} {st : LoopState}
    (hm : HasPrefix mline mPrefix = true)
    (hblock : ∀ l ∈ block, HasPrefix l mPrefix = false)
    (hpost : ∀ l, post.head? = some l → HasPrefix l mPrefix = true)
    (h : loop { sdpCtx := { MediaDescList := [] }, md := none }
      (pre ++ mline :: (block ++ post)) = .ok st) :
    ∃ d, (flush st).MediaDescList[(pre.filter (fun l => HasPrefix l mPrefix)).length]? = some d ∧
      BlockResult (newMediaDesc { Media := mediaField mline }) d block := by
  obtain ⟨st1, h1, h2⟩ := loop_ok_append h
  rw [loop_cons, loopBody_m st1 mline hm] at h2
  obtain ⟨st3, h3, h4⟩ := loop_ok_append h2
  obtain ⟨d, hd, hres⟩ := loop_block block _ _ st3 hblock h3
  subst hd
  have hlen : (flush st1).MediaDescList.length =
      (pre.filter (fun l => HasPrefix l mPrefix)).length := by
    have := congrArg List.length (loop_ok_media h1)
    simpa [flush] using this
  refine ⟨d, ?_, hres⟩
  rw [← hlen]
  exact loop_closed_block hpost h4

/-- C2: in a successful parse, the attributes of a media block (the lines
from an `m=` line up to the next `m=` line or the end of input) are those of
the last `a=rtpmap`, the last `a=fmtp` and the last `a=control` line of the
block, each exactly as its sub-parser returns it on that line alone. -/
theorem C2_last_attribute_line_wins (b : Str) (pre block post : List Str) (mline : Str)
    (r : RawContext)
    (hsplit : Split b crlf = pre ++ mline :: (block ++ post))
    (hm : HasPrefix mline mPrefix = true)
    (hblock : ∀ l ∈ block, HasPrefix l mPrefix = false)
    (hpost : ∀ l, post.head? = some l → HasPrefix l mPrefix = true)
    (hok : ParseSdp2RawContext b = (r, none)) :
    ∃ d, r.MediaDescList[(pre.filter (fun l => HasPrefix l mPrefix)).length]? = some d ∧
      d.M.Media = mediaField mline ∧
      (∀ l, lastLine rtpmapPrefix block = some l → ParseARtpMap l = .ok d.ARtpMap) ∧
      (∀ l, lastLine fmtpPrefix block = some l →
        ∃ v, ParseAFmtPBase l = .ok v ∧ d.AFmtPBase = some v) ∧
      (∀ l, lastLine controlPrefix block = some l → ParseAControl l = .ok d.AControl) := by
  unfold ParseSdp2RawContext at hok
  rw [hsplit] at hok
  obtain ⟨st, hst, hr⟩ := parseLines_ok hok
  obtain ⟨d, hd, hM, hr1, _, hf1, _, hc1, _⟩ := loop_block_desc hm hblock hpost hst
  rw [hr] at hd
  exact ⟨d, hd, by rw [hM]; rfl, hr1, hf1, hc1⟩

/-- C2 on a block with two `a=rtpmap` and two `a=fmtp` lines. -/
theorem C2_witness :
    ∃ d, (ParseSdp2RawContext
        "m=video 0\r\na=rtpmap:96 H264/90000\r\na=fmtp:96 a=1;b=2\r\na=rtpmap:97 H265/1\r\na=fmtp:97 c=3\r\nm=audio 0".toList).1.MediaDescList[0]? = some d ∧
      d.M.Media = "video".toList ∧
      ParseARtpMap "a=rtpmap:97 H265/1".toList = .ok d.ARtpMap ∧
      (∃ v, ParseAFmtPBase "a=fmtp:97 c=3".toList = .ok v ∧ d.AFmtPBase = some v) := by
  obtain ⟨d, h0, h1, h2, h3, _⟩ := C2_last_attribute_line_wins
    "m=video 0\r\na=rtpmap:96 H264/90000\r\na=fmtp:96 a=1;b=2\r\na=rtpmap:97 H265/1\r\na=fmtp:97 c=3\r\nm=audio 0".toList
    [] ["a=rtpmap:96 H264/90000".toList, "a=fmtp:96 a=1;b=2".toList,
        "a=rtpmap:97 H265/1".toList, "a=fmtp:97 c=3".toList]
    ["m=audio 0".toList] "m=video 0".toList
    (ParseSdp2RawContext
        "m=video 0\r\na=rtpmap:96 H264/90000\r\na=fmtp:96 a=1;b=2\r\na=rtpmap:97 H265/1\r\na=fmtp:97 c=3\r\nm=audio 0".toList).1
    (by decide) (by decide) (by decide) (by intro l h; cases h; decide) (by decide)
  exact ⟨d, h0, h1, h2 _ (by decide), h3 _ (by decide)⟩


/-! ## The driver: errors -/

theorem loopBody_error {st : LoopState} {line : Str} {c : RawContext} {e : SdpError}
    (h : loopBody st line = .error (c, e)) : c = st.sdpCtx ∧ Rejected line e := by
  rcases line_cases line with hm | hr | hf | hcn | ⟨h0, h1, h2, h3⟩
  · rw [loopBody_m st line hm] at h; cases h
  · rw [loopBody_rtpmap st line hr] at h
    cases hq : ParseARtpMap line with
    | error e1 => rw [hq] at h; cases h; exact ⟨rfl, Or.inr (Or.inl ⟨hr, hq⟩)⟩
    | ok v => rw [hq] at h; cases h
  · rw [loopBody_fmtp st line hf] at h
    cases hq : ParseAFmtPBase line with
    | error e1 => rw [hq] at h; cases h; exact ⟨rfl, Or.inr (Or.inr (Or.inl ⟨hf, hq⟩))⟩
    | ok v => rw [hq] at h; cases h
  · rw [loopBody_control st line hcn] at h
    cases hq : ParseAControl line with
    | error e1 => rw [hq] at h; cases h; exact ⟨rfl, Or.inr (Or.inr (Or.inr ⟨hcn, hq⟩))⟩
    | ok v => rw [hq] at h; cases h
  · rw [loopBody_other st line h0 h1 h2 h3] at h; cases h

theorem loopBody_of_rejected (st : LoopState) {line : Str} {e : SdpError}
    (h : Rejected line e) : loopBody st line = .error (st.sdpCtx, e) := by
  rcases h with ⟨hp, hq⟩ | ⟨hp, hq⟩ | ⟨hp, hq⟩ | ⟨hp, hq⟩
  · rw [ParseM_eq] at hq; cases hq
  · rw [loopBody_rtpmap st line hp, hq]
  · rw [loopBody_fmtp st line hp, hq]
  · rw [loopBody_control st line hp, hq]

theorem not_rejected_of_ok {st st1 : LoopState} {line : Str}
    (h : loopBody st line = .ok st1) (e : SdpError) : ¬ Rejected line e := by
  intro hr
  rw [loopBody_of_rejected st hr] at h
  cases h

/-- A failing run stops at its first rejected line, returning `sdpCtx` as it
stands there. -/
theorem loop_error {lines : List Str} {st : LoopState} {c : RawContext} {e : SdpError}
    (h : loop st lines = .error (c, e)) :
    ∃ pre bad post st1, lines = pre ++ bad :: post ∧ loop st pre = .ok st1 ∧
      (∀ l ∈ pre, ∀ e1, ¬ Rejected l e1) ∧ c = st1.sdpCtx ∧ Rejected bad e := by
  induction lines generalizing st with
  | nil => cases h
  | cons x xs ih =>
    rw [loop_cons] at h
    cases hx : loopBody st x with
    | error r =>
      rw [hx] at h
      cases h
      obtain ⟨hc, hr⟩ := loopBody_error hx
      exact ⟨[], x, xs, st, rfl, rfl, fun l hl => absurd hl (List.not_mem_nil l), hc, hr⟩
    | ok st0 =>
      rw [hx] at h
      obtain ⟨pre, bad, post, st1, e1, e2, e3, e4, e5⟩ := ih h
      refine ⟨x :: pre, bad, post, st1, by rw [e1]; rfl, ?_, ?_, e4, e5⟩
      · rw [loop_cons, hx]; exact e2
      · intro l hl
        rcases List.mem_cons.1 hl with e | hl
        · rw [e]; exact not_rejected_of_ok hx
        · exact e3 l hl

theorem loop_ok_not_rejected {lines : List Str} {st st1 : LoopState}
    (h : loop st lines = .ok st1) : ∀ l ∈ lines, ∀ e, ¬ Rejected l e := by
  induction lines generalizing st with
  | nil => intro l hl; cases hl
  | cons x xs ih =>
    rw [loop_cons] at h
    cases hx : loopBody st x with
    | error r => rw [hx] at h; cases h
    | ok st0 =>
      rw [hx] at h
      intro l hl
      rcases List.mem_cons.1 hl with e | hl
      · rw [e]; exact not_rejected_of_ok hx
      · exact ih h l hl

/-- Lines before the first `m=` line leave the loop state untouched. -/
theorem loop_no_cursor {pre : List Str} {ctx : RawContext} {st1 : LoopState}
    (hpre : ∀ l ∈ pre, HasPrefix l mPrefix = false)
    (h : loop { sdpCtx := ctx, md := none } pre = .ok st1) :
    st1 = { sdpCtx := ctx, md := none } := by
  induction pre using List.reverseRecOn generalizing st1 with
  | nil => cases h; rfl
  | append_singleton init l ih =>
    rw [loop_concat] at h
    cases h0 : loop { sdpCtx := ctx, md := none } init with
    | error r => rw [h0] at h; cases h
    | ok st0 =>
      rw [h0] at h
      have := ih (fun x hx => hpre x (List.mem_append_left _ hx)) h0
      subst this
      replace h : loopBody { sdpCtx := ctx, md := none } l = .ok st1 := h
      have hl : HasPrefix l mPrefix = false := hpre l (by simp)
      rcases line_cases l with hm | hr | hf | hcn | ⟨_, h1, h2, h3⟩
      · rw [hl] at hm; cases hm
      · rw [loopBody_rtpmap _ l hr] at h
        cases hq : ParseARtpMap l with
        | error e1 => rw [hq] at h; cases h
        | ok v => rw [hq] at h; cases h; rfl
      · rw [loopBody_fmtp _ l hf] at h
        cases hq : ParseAFmtPBase l with
        | error e1 => rw [hq] at h; cases h
        | ok v => rw [hq] at h; cases h; rfl
      · rw [loopBody_control _ l hcn] at h
        cases hq : ParseAControl l with
        | error e1 => rw [hq] at h; cases h
        | ok v => rw [hq] at h; cases h; rfl
      · rw [loopBody_other _ l hl h1 h2 h3] at h
        cases h; rfl


theorem parseLines_of_ok {lines : List Str} {st : LoopState}
    (h : loop { sdpCtx := { MediaDescList := [] }, md := none } lines = .ok st) :
    parseLines lines = (flush st, none) := by
  simp only [parseLines, h]

theorem parseLines_of_error {lines : List Str} {c : RawContext} {e : SdpError}
    (h : loop { sdpCtx := { MediaDescList := [] }, md := none } lines = .error (c, e)) :
    parseLines lines = (c, some e) := by
  simp only [parseLines, h]

theorem parseLines_error {lines : List Str} {c : RawContext} {e : SdpError}
    (h : parseLines lines = (c, some e)) :
    loop { sdpCtx := { MediaDescList := [] }, md := none } lines = .error (c, e) := by
  cases hl : loop { sdpCtx := { MediaDescList := [] }, md := none } lines with
  | error p =>
    obtain ⟨c1, e1⟩ := p
    rw [parseLines_of_error hl] at h
    cases h; rfl
  | ok st => rw [parseLines_of_ok hl] at h; cases h

/-- C3 (as stated) fails: a rejected attribute line before the first `m=`
line makes the parse fail, although the input without it parses. -/
theorem C3_counterexample :
    (ParseSdp2RawContext "a=rtpmap:abc H264/90000\r\nm=video 0".toList).2 =
        some (.NumError "abc".toList .ErrSyntax) ∧
    (ParseSdp2RawContext "m=video 0".toList).2 = none := by
  decide

/-- C3 (amended): attribute lines before the first `m=` line never reach the
output.  When each is accepted by its sub-parser the result, error included, is
that of the remaining lines alone; when one is rejected, the parse returns that
error with an empty `MediaDescList`. -/
theorem C3_leading_attribute_lines (b : Str) (pre rest : List Str)
    (hsplit : Split b crlf = pre ++ rest)
    (hpre : ∀ l ∈ pre, HasPrefix l mPrefix = false) :
    (AttrsAccepted pre → ParseSdp2RawContext b = parseLines rest) ∧
    (¬ AttrsAccepted pre → ∃ l ∈ pre, ∃ e, Rejected l e ∧
      ParseSdp2RawContext b = ({ MediaDescList := [] }, some e)) := by
  unfold ParseSdp2RawContext
  rw [hsplit]
  constructor
  · intro hacc
    obtain ⟨st1, h1, _⟩ := loop_media pre { sdpCtx := { MediaDescList := [] }, md := none } hacc
    have hst := loop_no_cursor hpre h1
    subst hst
    simp only [parseLines, loop_append, h1]
  · intro hacc
    cases h1 : loop { sdpCtx := { MediaDescList := [] }, md := none } pre with
    | ok st1 => exact absurd (loop_ok_accepted h1) hacc
    | error p =>
      obtain ⟨c, e⟩ := p
      obtain ⟨p0, bad, q0, st1, e1, e2, _, e4, e5⟩ := loop_error h1
      have hst := loop_no_cursor (fun l hl => hpre l (by rw [e1]; simp [hl])) e2
      subst hst
      subst e4
      refine ⟨bad, by rw [e1]; simp, e, e5, ?_⟩
      apply parseLines_of_error
      rw [loop_append, h1]

/-- C3 (amended) on two accepted attribute lines ahead of the first `m=`. -/
theorem C3_witness :
    ParseSdp2RawContext "a=control:*\r\na=rtpmap:96 H264/90000\r\nm=video 0".toList =
      parseLines ["m=video 0".toList] :=
  (C3_leading_attribute_lines
    "a=control:*\r\na=rtpmap:96 H264/90000\r\nm=video 0".toList
    ["a=control:*".toList, "a=rtpmap:96 H264/90000".toList] ["m=video 0".toList]
    (by decide) (by decide)).1 (by decide)

theorem loopBody_cursor_inv {st st1 : LoopState} {line : Str}
    (h : loopBody st line = .ok st1)
    (hinv : st.md = none → st.sdpCtx.MediaDescList = []) :
    st1.md = none → st1.sdpCtx.MediaDescList = [] := by
  rcases line_cases line with hm | hr | hf | hcn | ⟨h0, h1, h2, h3⟩
  · rw [loopBody_m st line hm] at h
    cases h; intro hn; cases hn
  · rw [loopBody_rtpmap st line hr] at h
    cases hq : ParseARtpMap line with
    | error e1 => rw [hq] at h; cases h
    | ok v =>
      rw [hq] at h; cases h
      intro hn; exact hinv (Option.map_eq_none'.1 hn)
  · rw [loopBody_fmtp st line hf] at h
    cases hq : ParseAFmtPBase line with
    | error e1 => rw [hq] at h; cases h
    | ok v =>
      rw [hq] at h; cases h
      intro hn; exact hinv (Option.map_eq_none'.1 hn)
  · rw [loopBody_control st line hcn] at h
    cases hq : ParseAControl line with
    | error e1 => rw [hq] at h; cases h
    | ok v =>
      rw [hq] at h; cases h
      intro hn; exact hinv (Option.map_eq_none'.1 hn)
  · rw [loopBody_other st line h0 h1 h2 h3] at h
    cases h; exact hinv

theorem loop_cursor_inv {lines : List Str} {st st1 : LoopState}
    (h : loop st lines = .ok st1)
    (hinv : st.md = none → st.sdpCtx.MediaDescList = []) :
    st1.md = none → st1.sdpCtx.MediaDescList = [] := by
  induction lines generalizing st with
  | nil => cases h; exact hinv
  | cons x xs ih =>
    rw [loop_cons] at h
    cases hx : loopBody st x with
    | error r => rw [hx] at h; cases h
    | ok st0 =>
      rw [hx] at h
      exact ih h (loopBody_cursor_inv hx hinv)

theorem dropLast_flush {st : LoopState}
    (hinv : st.md = none → st.sdpCtx.MediaDescList = []) :
    (flush st).MediaDescList.dropLast = st.sdpCtx.MediaDescList := by
  cases st with
  | mk ctx md =>
    cases md with
    | none =>
      have h0 : ctx.MediaDescList = [] := hinv rfl
      simp [flush, h0]
    | some d => simp [flush]

/-- C4 (as stated) fails: the context returned with an error still lists
the media block that an earlier `m=` line had completed. -/
theorem C4_counterexample :
    (ParseSdp2RawContext "m=video 0\r\nm=audio 0\r\na=rtpmap:abc H264/90000".toList).2 =
        some (.NumError "abc".toList .ErrSyntax) ∧
    (ParseSdp2RawContext "m=video 0\r\nm=audio 0\r\na=rtpmap:abc H264/90000".toList).1.MediaDescList =
        [newMediaDesc { Media := "video".toList }] := by
  decide

/-- C4 (amended): the context returned with an error holds exactly the media
descriptions completed before the failing line, i.e. what parsing the preceding
lines alone returns, without its last entry (the block still open). -/
theorem C4_error_returns_completed_blocks (b : Str) (c : RawContext) (e : SdpError)
    (h : ParseSdp2RawContext b = (c, some e)) :
    ∃ pre bad post r, Split b crlf = pre ++ bad :: post ∧ Rejected bad e ∧
      parseLines pre = (r, none) ∧
      c.MediaDescList = r.MediaDescList.dropLast ∧
      c.MediaDescList.length = (pre.filter (fun l => HasPrefix l mPrefix)).length - 1 := by
  obtain ⟨pre, bad, post, st1, e1, e2, _, e4, e5⟩ := loop_error (parseLines_error h)
  have hinv := loop_cursor_inv e2 (fun _ => rfl)
  have hd := dropLast_flush hinv
  refine ⟨pre, bad, post, flush st1, e1, e5, parseLines_of_ok e2, ?_, ?_⟩
  · rw [e4, hd]
  · have := congrArg List.length (loop_ok_media e2)
    rw [e4, ← hd, List.length_dropLast]
    have h0 : (flush { sdpCtx := { MediaDescList := [] }, md := none }).MediaDescList = [] := rfl
    rw [h0] at this
    simp only [List.length_map, List.map_nil, List.nil_append] at this
    rw [this]

/-- C4 (amended) on an input failing in its second media block. -/
theorem C4_witness :
    ∃ pre bad post r,
      Split "m=video 0\r\nm=audio 0\r\na=rtpmap:abc H264/90000".toList crlf = pre ++ bad :: post ∧
      Rejected bad (.NumError "abc".toList .ErrSyntax) ∧
      parseLines pre = (r, none) ∧
      [newMediaDesc { Media := "video".toList }] = r.MediaDescList.dropLast ∧
      1 = (pre.filter (fun l => HasPrefix l mPrefix)).length - 1 :=
  C4_error_returns_completed_blocks
    "m=video 0\r\nm=audio 0\r\na=rtpmap:abc H264/90000".toList
    { MediaDescList := [newMediaDesc { Media := "video".toList }] }
    (.NumError "abc".toList .ErrSyntax) (by decide)


/-- C6: `ParseSdp2RawContext` returns an error exactly when some line of the
input beginning with `m=`, `a=rtpmap`, `a=fmtp` or `a=control` is rejected by
its sub-parser, and the error returned is the one of the first such line. -/
theorem C6_error_iff_rejected_line (b : Str) :
    ((ParseSdp2RawContext b).2 ≠ none ↔ ∃ l ∈ Split b crlf, ∃ e, Rejected l e) ∧
    (∀ e, (ParseSdp2RawContext b).2 = some e →
      ∃ pre bad post, Split b crlf = pre ++ bad :: post ∧
        (∀ l ∈ pre, ∀ e1, ¬ Rejected l e1) ∧ Rejected bad e) := by
  have key : ∀ c e, ParseSdp2RawContext b = (c, some e) →
      ∃ pre bad post, Split b crlf = pre ++ bad :: post ∧
        (∀ l ∈ pre, ∀ e1, ¬ Rejected l e1) ∧ Rejected bad e := by
    intro c e h
    obtain ⟨pre, bad, post, st1, e1, _, e3, _, e5⟩ := loop_error (parseLines_error h)
    exact ⟨pre, bad, post, e1, e3, e5⟩
  refine ⟨⟨fun h => ?_, fun h => ?_⟩, fun e h => ?_⟩
  · cases hr : ParseSdp2RawContext b with
    | mk c oe =>
      cases oe with
      | none => rw [hr] at h; exact absurd rfl h
      | some e =>
        obtain ⟨pre, bad, post, e1, _, e5⟩ := key c e hr
        exact ⟨bad, by rw [e1]; simp, e, e5⟩
  · obtain ⟨l, hl, e, hrej⟩ := h
    intro hnone
    cases hloop : loop { sdpCtx := { MediaDescList := [] }, md := none } (Split b crlf) with
    | ok st => exact loop_ok_not_rejected hloop l hl e hrej
    | error p =>
      obtain ⟨c1, e1⟩ := p
      have := parseLines_of_error hloop
      unfold ParseSdp2RawContext at hnone
      rw [this] at hnone
      cases hnone
  · cases hr : ParseSdp2RawContext b with
    | mk c oe =>
      rw [hr] at h
      cases h
      exact key c e hr


/-! ## `strconv.Atoi` -/

theorem foldl_digits_mono (s : Str) (n : Nat) :
    n ≤ s.foldl (fun n c => n * 10 + (c.toNat - 48)) n := by
  induction s generalizing n with
  | nil => exact Nat.le_refl _
  | cons c cs ih =>
    simp only [List.foldl_cons]
    have := ih (n * 10 + (c.toNat - 48))
    omega

theorem parseUintLoop_ok_of (s : Str) (n : Nat)
    (hd : s.all isDigit = true)
    (hv : s.foldl (fun n c => n * 10 + (c.toNat - 48)) n ≤ 2 ^ 64 - 1) :
    parseUintLoop s n = .ok (s.foldl (fun n c => n * 10 + (c.toNat - 48)) n) := by
  induction s generalizing n with
  | nil => rfl
  | cons c cs ih =>
    simp only [List.all_cons, Bool.and_eq_true] at hd
    simp only [List.foldl_cons] at hv ⊢
    have hm := foldl_digits_mono cs (n * 10 + (c.toNat - 48))
    have h1 : ¬ n ≥ (2 ^ 64 - 1) / 10 + 1 := by
      norm_num at hv hm ⊢; omega
    have h2 : ¬ n * 10 + (c.toNat - 48) > 2 ^ 64 - 1 := by
      norm_num at hv hm ⊢; omega
    simp only [parseUintLoop, hd.1, Bool.not_true, Bool.false_eq_true, if_false, h1, h2]
    exact ih _ hd.2 hv

theorem parseUintLoop_ok {s : Str} {n v : Nat} (h : parseUintLoop s n = .ok v) :
    s.all isDigit = true ∧ v = s.foldl (fun n c => n * 10 + (c.toNat - 48)) n := by
  induction s generalizing n with
  | nil => simp only [parseUintLoop, Except.ok.injEq] at h; exact ⟨rfl, h.symm⟩
  | cons c cs ih =>
    simp only [parseUintLoop] at h
    by_cases hd : isDigit c = true
    · simp only [hd, Bool.not_true, Bool.false_eq_true, if_false] at h
      split_ifs at h with h1 h2
      obtain ⟨e1, e2⟩ := ih h
      exact ⟨by simp [hd, e1], by simpa using e2⟩
    · simp [hd] at h

theorem ParseInt_of_int (s : Str) (h1 : isBase10Int s = true) (h2 : fitsInt s = true) :
    ParseInt s = .ok (intValue s) := by
  cases s with
  | nil => simp [isBase10Int] at h1
  | cons c cs =>
    simp only [fitsInt, Bool.and_eq_true, decide_eq_true_eq] at h2
    obtain ⟨hlo, hhi⟩ := h2
    by_cases hneg : c = '-'
    · subst hneg
      simp only [isBase10Int, or_true, if_true, Bool.and_eq_true, Bool.not_eq_true',
        List.isEmpty_eq_false] at h1
      simp only [intValue, if_true] at hlo hhi ⊢
      have hv : digitsValue cs ≤ 2 ^ 63 := by
        have : (digitsValue cs : Int) ≤ 2 ^ 63 := by linarith
        exact_mod_cast this
      have hp : ParseUint cs = .ok (digitsValue cs) := by
        simp only [ParseUint, h1.1, if_false]
        exact parseUintLoop_ok_of cs 0 h1.2 (by unfold digitsValue at hv; norm_num at hv ⊢; omega)
      simp only [ParseInt, or_true, if_true, hp, not_true_eq_false, false_and, if_false, true_and]
      rw [if_neg (by omega)]
    · by_cases hpos : c = '+'
      · subst hpos
        simp only [isBase10Int, true_or, if_true, Bool.and_eq_true, Bool.not_eq_true',
          List.isEmpty_eq_false] at h1
        simp only [intValue, hneg, if_false, if_true] at hlo hhi ⊢
        have hv : digitsValue cs < 2 ^ 63 := by
          have : (digitsValue cs : Int) < 2 ^ 63 := by linarith
          exact_mod_cast this
        have hp : ParseUint cs = .ok (digitsValue cs) := by
          simp only [ParseUint, h1.1, if_false]
          exact parseUintLoop_ok_of cs 0 h1.2 (by unfold digitsValue at hv; norm_num at hv ⊢; omega)
        simp only [ParseInt, true_or, if_true, hp, hneg, not_false_eq_true, true_and, false_and,
          if_false]
        rw [if_neg (by omega)]
      · simp only [isBase10Int, hneg, hpos, or_self, if_false] at h1
        simp only [intValue, hneg, hpos, if_false] at hlo hhi ⊢
        have hv : digitsValue (c :: cs) < 2 ^ 63 := by
          have : (digitsValue (c :: cs) : Int) < 2 ^ 63 := by linarith
          exact_mod_cast this
        have hp : ParseUint (c :: cs) = .ok (digitsValue (c :: cs)) := by
          simp only [ParseUint, if_false]
          exact parseUintLoop_ok_of (c :: cs) 0 h1
            (by unfold digitsValue at hv; norm_num at hv ⊢; omega)
        simp only [ParseInt, hneg, hpos, or_self, if_false, hp, not_false_eq_true, true_and,
          false_and]
        rw [if_neg (by omega)]

theorem ParseUint_ok {s : Str} {un : Nat} (h : ParseUint s = .ok un) :
    s ≠ [] ∧ s.all isDigit = true ∧ un = digitsValue s := by
  unfold ParseUint at h
  by_cases hs : s = []
  · simp [hs] at h
  · simp only [hs, if_false] at h
    exact ⟨hs, parseUintLoop_ok h⟩

theorem ParseInt_ok {s : Str} {v : Int} (h : ParseInt s = .ok v) :
    isBase10Int s = true ∧ fitsInt s = true ∧ v = intValue s := by
  cases s with
  | nil => simp [ParseInt] at h
  | cons c cs =>
    by_cases hneg : c = '-'
    · subst hneg
      simp only [ParseInt, or_true, if_true, not_true_eq_false, false_and, if_false,
        true_and] at h
      cases hp : ParseUint cs with
      | error e => rw [hp] at h; cases h
      | ok un =>
        rw [hp] at h; dsimp only at h
        obtain ⟨e1, e2, e3⟩ := ParseUint_ok hp
        by_cases hu : un > 2 ^ 63
        · rw [if_pos hu] at h; cases h
        · rw [if_neg hu] at h; simp only [Except.ok.injEq] at h
          subst e3
          refine ⟨?_, ?_, ?_⟩
          · simp [isBase10Int, e1, e2]
          · simp only [fitsInt, intValue, if_true, Bool.and_eq_true, decide_eq_true_eq]
            constructor <;> omega
          · simp only [intValue, if_true]; exact h.symm
    · by_cases hpos : c = '+'
      · subst hpos
        simp only [ParseInt, true_or, if_true, hneg, not_false_eq_true, true_and, false_and,
          if_false] at h
        cases hp : ParseUint cs with
        | error e => rw [hp] at h; cases h
        | ok un =>
          rw [hp] at h; dsimp only at h
          obtain ⟨e1, e2, e3⟩ := ParseUint_ok hp
          by_cases hu : un ≥ 2 ^ 63
          · rw [if_pos hu] at h; cases h
          · rw [if_neg hu] at h; simp only [Except.ok.injEq] at h
            subst e3
            refine ⟨?_, ?_, ?_⟩
            · simp [isBase10Int, e1, e2]
            · simp only [fitsInt, intValue, hneg, if_false, if_true, Bool.and_eq_true,
                decide_eq_true_eq]
              constructor <;> omega
            · simp only [intValue, hneg, if_false, if_true]; exact h.symm
      · simp only [ParseInt, hneg, hpos, or_self, if_false, not_false_eq_true, true_and,
          false_and] at h
        cases hp : ParseUint (c :: cs) with
        | error e => rw [hp] at h; cases h
        | ok un =>
          rw [hp] at h; dsimp only at h
          obtain ⟨e1, e2, e3⟩ := ParseUint_ok hp
          by_cases hu : un ≥ 2 ^ 63
          · rw [if_pos hu] at h; cases h
          · rw [if_neg hu] at h; simp only [Except.ok.injEq] at h
            subst e3
            refine ⟨?_, ?_, ?_⟩
            · simp only [isBase10Int, hneg, hpos, or_self, if_false]; exact e2
            · simp only [fitsInt, intValue, hneg, hpos, if_false, Bool.and_eq_true,
                decide_eq_true_eq]
              constructor <;> omega
            · simp only [intValue, hneg, hpos, if_false]; exact h.symm

/-- `Atoi` accepts exactly the base-10 integer literals that fit the `int`
type, and returns the integer they denote. -/
theorem Atoi_of_int (s : Str) (h1 : isBase10Int s = true) (h2 : fitsInt s = true) :
    Atoi s = .ok (intValue s) := by
  simp only [Atoi, ParseInt_of_int s h1 h2]

theorem Atoi_ok {s : Str} {v : Int} (h : Atoi s = .ok v) :
    isBase10Int s = true ∧ fitsInt s = true ∧ v = intValue s := by
  unfold Atoi at h
  cases hp : ParseInt s with
  | error e => rw [hp] at h; cases h
  | ok n => rw [hp] at h; cases h; exact ParseInt_ok hp

theorem Atoi_error {s : Str} {e : SdpError} (h : Atoi s = .error e) :
    (isBase10Int s = false ∨ fitsInt s = false) ∧ ∃ k, e = .NumError s k := by
  constructor
  · by_contra hc
    simp only [not_or, Bool.not_eq_false] at hc
    rw [Atoi_of_int s hc.1 hc.2] at h
    cases h
  · unfold Atoi at h
    cases hp : ParseInt s with
    | error k => rw [hp] at h; cases h; exact ⟨k, rfl⟩
    | ok n => rw [hp] at h; cases h

theorem Atoi_isOk (s : Str) :
    (Atoi s).isOk = (isBase10Int s && fitsInt s) := by
  cases h : Atoi s with
  | error e =>
    rcases (Atoi_error h).1 with h1 | h1 <;> simp [Except.isOk, Except.toBool, h1]
  | ok v =>
    obtain ⟨h1, h2, _⟩ := Atoi_ok h
    simp [Except.isOk, Except.toBool, h1, h2]


/-! ## Decimal rendering of natural numbers -/

theorem digitChar_digit (k : Nat) (hk : k < 10) :
    isDigit (Nat.digitChar k) = true ∧ (Nat.digitChar k).toNat - 48 = k := by
  interval_cases k <;> exact ⟨by decide, by decide⟩

theorem toDigitsCore_value (fuel n : Nat) (ds : Str) (h : n < fuel) :
    (Nat.toDigitsCore 10 fuel n ds).foldl (fun n c => n * 10 + (c.toNat - 48)) 0 =
      ds.foldl (fun n c => n * 10 + (c.toNat - 48)) n := by
  induction fuel generalizing n ds with
  | zero => omega
  | succ fuel ih =>
    have hd := (digitChar_digit (n % 10) (Nat.mod_lt _ (by norm_num))).2
    unfold Nat.toDigitsCore
    by_cases h0 : n / 10 = 0
    · simp only [h0, if_true, List.foldl_cons, hd]
      have : n % 10 = n := Nat.mod_eq_of_lt (by omega)
      rw [this]; simp
    · simp only [h0, if_false]
      rw [ih (n / 10) _ (by omega)]
      simp only [List.foldl_cons, hd]
      have : n / 10 * 10 + n % 10 = n := by omega
      rw [this]

theorem toDigitsCore_digits (fuel n : Nat) (ds : Str) :
    ∀ c ∈ Nat.toDigitsCore 10 fuel n ds, isDigit c = true ∨ c ∈ ds := by
  induction fuel generalizing n ds with
  | zero => intro c hc; exact Or.inr hc
  | succ fuel ih =>
    have hd := (digitChar_digit (n % 10) (Nat.mod_lt _ (by norm_num))).1
    intro c hc
    unfold Nat.toDigitsCore at hc
    by_cases h0 : n / 10 = 0
    · simp only [h0, if_true] at hc
      rcases List.mem_cons.1 hc with e | hc
      · rw [e]; exact Or.inl hd
      · exact Or.inr hc
    · simp only [h0, if_false] at hc
      rcases ih _ _ c hc with h1 | h1
      · exact Or.inl h1
      · rcases List.mem_cons.1 h1 with e | h1
        · rw [e]; exact Or.inl hd
        · exact Or.inr h1

theorem toDigitsCore_ne_nil (fuel n : Nat) (ds : Str) (h : ds ≠ [] ∨ 0 < fuel) :
    Nat.toDigitsCore 10 fuel n ds ≠ [] := by
  induction fuel generalizing n ds with
  | zero =>
    rcases h with h | h
    · exact h
    · omega
  | succ fuel ih =>
    unfold Nat.toDigitsCore
    by_cases h0 : n / 10 = 0
    · simp [h0]
    · simp only [h0, if_false]
      exact ih _ _ (Or.inl (by simp))

theorem toDigits_all_digits (n : Nat) : (Nat.toDigits 10 n).all isDigit = true := by
  rw [List.all_eq_true]
  intro c hc
  rcases toDigitsCore_digits (n + 1) n [] c hc with h | h
  · exact h
  · cases h

theorem toDigits_ne_nil (n : Nat) : Nat.toDigits 10 n ≠ [] :=
  toDigitsCore_ne_nil (n + 1) n [] (Or.inr (by omega))

theorem toDigits_value (n : Nat) : digitsValue (Nat.toDigits 10 n) = n := by
  unfold digitsValue Nat.toDigits
  rw [toDigitsCore_value (n + 1) n [] (by omega)]
  rfl

theorem toDigits_not_mem (n : Nat) (c : Char) (hc : isDigit c = false) :
    c ∉ Nat.toDigits 10 n := by
  intro h
  have := List.all_eq_true.1 (toDigits_all_digits n) c h
  rw [hc] at this
  cases this

/-- `Atoi` reads back the decimal rendering of a natural number of `int` range. -/
theorem Atoi_toDigits (n : Nat) (h : n < 2 ^ 63) :
    Atoi (Nat.toDigits 10 n) = .ok (n : Int) := by
  have hall := toDigits_all_digits n
  have hval := toDigits_value n
  have hne := toDigits_ne_nil n
  cases hs : Nat.toDigits 10 n with
  | nil => exact absurd hs hne
  | cons c cs =>
    rw [hs] at hall hval
    have hc : isDigit c = true := by
      simp only [List.all_cons, Bool.and_eq_true] at hall; exact hall.1
    have hneg : c ≠ '-' := by intro e; rw [e] at hc; exact absurd hc (by decide)
    have hpos : c ≠ '+' := by intro e; rw [e] at hc; exact absurd hc (by decide)
    have hi : intValue (c :: cs) = (n : Int) := by
      simp only [intValue, hneg, hpos, if_false, hval]
    have h1 : isBase10Int (c :: cs) = true := by
      simp only [isBase10Int, hneg, hpos, or_self, if_false]; exact hall
    have h2 : fitsInt (c :: cs) = true := by
      simp only [fitsInt, hi, Bool.and_eq_true, decide_eq_true_eq]
      constructor <;> omega
    rw [Atoi_of_int _ h1 h2, hi]


/-! ## `ParseARtpMap` -/

theorem after_eq_nil_of_not_mem (c : Char) (s : Str) (h : c ∉ s) : after c s = [] := by
  induction s with
  | nil => simp [after]
  | cons x xs ih =>
    have hx : x ≠ c := fun e => h (by simp [e])
    have hxs : c ∉ xs := fun e => h (by simp [e])
    simp only [after] at ih ⊢
    simp [List.dropWhile_cons, hx, ih hxs]

theorem rtpMapFields_eq (pt : Int) (rest : Str) :
    rtpMapFields pt (SplitN rest "/".toList 3) =
      if '/' ∈ rest then
        match Atoi (before '/' (after '/' rest)) with
        | .error e => .error e
        | .ok cr =>
          .ok { PayloadType := pt, EncodingName := before '/' rest, ClockRate := cr,
                EncodingParameters := after '/' (after '/' rest) }
      else .error .ErrSdp := by
  have hs : "/".toList = ['/'] := rfl
  rw [hs, SplitN_three]
  by_cases h1 : '/' ∈ rest
  · by_cases h2 : '/' ∈ after '/' rest
    · simp only [h1, h2, if_true, rtpMapFields]
    · simp only [h1, h2, if_true, if_false, rtpMapFields,
        before_eq_of_not_mem _ _ h2, after_eq_nil_of_not_mem _ _ h2]
  · simp only [h1, if_false, rtpMapFields]

/-- `ParseARtpMap` in terms of the pieces of the line around its first `:`,
first space and first two `/`. -/
theorem ParseARtpMap_eq (s : Str) :
    ParseARtpMap s =
      if ':' ∈ s then
        if ' ' ∈ after ':' s then
          match Atoi (before ' ' (after ':' s)) with
          | .error e => .error e
          | .ok pt =>
            if '/' ∈ after ' ' (after ':' s) then
              match Atoi (before '/' (after '/' (after ' ' (after ':' s)))) with
              | .error e => .error e
              | .ok cr =>
                .ok { PayloadType := pt, EncodingName := before '/' (after ' ' (after ':' s)),
                      ClockRate := cr,
                      EncodingParameters := after '/' (after '/' (after ' ' (after ':' s))) }
            else .error .ErrSdp
        else .error .ErrSdp
      else .error .ErrSdp := by
  have hc : ":".toList = [':'] := rfl
  have hsp : " ".toList = [' '] := rfl
  unfold ParseARtpMap
  rw [hc, SplitN_two]
  by_cases h1 : ':' ∈ s
  · simp only [h1, if_true]
    rw [hsp, SplitN_two]
    by_cases h2 : ' ' ∈ after ':' s
    · simp only [h2, if_true]
      cases Atoi (before ' ' (after ':' s)) with
      | error e => rfl
      | ok pt => simp only [rtpMapFields_eq]
    · simp only [h2, if_false]
  · simp only [h1, if_false]


theorem ParseARtpMap_two_fields (a tok name clock : Str) (pt cr : Int)
    (ha : ':' ∉ a) (htok : ' ' ∉ tok) (hname : '/' ∉ name) (hclock : '/' ∉ clock)
    (hpt : Atoi tok = .ok pt) (hcr : Atoi clock = .ok cr) :
    ParseARtpMap (a ++ ':' :: (tok ++ ' ' :: (name ++ '/' :: clock))) =
      .ok { PayloadType := pt, EncodingName := name, ClockRate := cr,
            EncodingParameters := [] } := by
  rw [ParseARtpMap_eq]
  have m1 : ':' ∈ a ++ ':' :: (tok ++ ' ' :: (name ++ '/' :: clock)) := by simp
  have m2 : ' ' ∈ tok ++ ' ' :: (name ++ '/' :: clock) := by simp
  have m3 : '/' ∈ name ++ '/' :: clock := by simp
  simp only [m1, if_true, after_append _ _ _ ha, m2, before_append _ _ _ htok,
    after_append _ _ _ htok, hpt, m3, before_append _ _ _ hname, after_append _ _ _ hname,
    before_eq_of_not_mem _ _ hclock, after_eq_nil_of_not_mem _ _ hclock, hcr]

theorem ParseARtpMap_three_fields (a tok name clock params : Str) (pt cr : Int)
    (ha : ':' ∉ a) (htok : ' ' ∉ tok) (hname : '/' ∉ name) (hclock : '/' ∉ clock)
    (hpt : Atoi tok = .ok pt) (hcr : Atoi clock = .ok cr) :
    ParseARtpMap (a ++ ':' :: (tok ++ ' ' :: (name ++ '/' :: (clock ++ '/' :: params)))) =
      .ok { PayloadType := pt, EncodingName := name, ClockRate := cr,
            EncodingParameters := params } := by
  rw [ParseARtpMap_eq]
  have m1 : ':' ∈ a ++ ':' :: (tok ++ ' ' :: (name ++ '/' :: (clock ++ '/' :: params))) := by
    simp
  have m2 : ' ' ∈ tok ++ ' ' :: (name ++ '/' :: (clock ++ '/' :: params)) := by simp
  have m3 : '/' ∈ name ++ '/' :: (clock ++ '/' :: params) := by simp
  simp only [m1, if_true, after_append _ _ _ ha, m2, before_append _ _ _ htok,
    after_append _ _ _ htok, hpt, m3, before_append _ _ _ hname, after_append _ _ _ hname,
    before_append _ _ _ hclock, after_append _ _ _ hclock, hcr]

/-- C7: `ParseARtpMap` inverts the canonical rendering of a codec mapping.
For natural numbers `pt`, `rate` of `int` range written in decimal, a name `n`
without `/` and any `e`, the line `a=rtpmap:<pt> <n>/<rate>` parses to
`{pt, n, rate, ""}` and `a=rtpmap:<pt> <n>/<rate>/<e>` to `{pt, n, rate, e}`. -/
theorem C7_rtpmap_roundtrip (pt rate : Nat) (n e : Str)
    (hpt : pt < 2 ^ 63) (hrate : rate < 2 ^ 63) (hn : '/' ∉ n) :
    ParseARtpMap ("a=rtpmap:".toList ++ Nat.toDigits 10 pt ++ " ".toList ++ n ++ "/".toList ++
        Nat.toDigits 10 rate) =
      .ok { PayloadType := pt, EncodingName := n, ClockRate := rate,
            EncodingParameters := [] } ∧
    ParseARtpMap ("a=rtpmap:".toList ++ Nat.toDigits 10 pt ++ " ".toList ++ n ++ "/".toList ++
        Nat.toDigits 10 rate ++ "/".toList ++ e) =
      .ok { PayloadType := pt, EncodingName := n, ClockRate := rate,
            EncodingParameters := e } := by
  have ha : ':' ∉ "a=rtpmap".toList := by decide
  have htok : ' ' ∉ Nat.toDigits 10 pt := toDigits_not_mem pt ' ' (by decide)
  have hclock : '/' ∉ Nat.toDigits 10 rate := toDigits_not_mem rate '/' (by decide)
  have e1 : "a=rtpmap:".toList ++ Nat.toDigits 10 pt ++ " ".toList ++ n ++ "/".toList ++
      Nat.toDigits 10 rate =
      "a=rtpmap".toList ++ ':' :: (Nat.toDigits 10 pt ++ ' ' :: (n ++ '/' :: Nat.toDigits 10 rate)) := by
    simp [List.append_assoc]
  have e2 : "a=rtpmap:".toList ++ Nat.toDigits 10 pt ++ " ".toList ++ n ++ "/".toList ++
      Nat.toDigits 10 rate ++ "/".toList ++ e =
      "a=rtpmap".toList ++ ':' :: (Nat.toDigits 10 pt ++ ' ' ::
        (n ++ '/' :: (Nat.toDigits 10 rate ++ '/' :: e))) := by
    simp [List.append_assoc]
  rw [e2, e1]
  exact ⟨ParseARtpMap_two_fields _ _ _ _ _ _ ha htok hn hclock
      (Atoi_toDigits pt hpt) (Atoi_toDigits rate hrate),
    ParseARtpMap_three_fields _ _ _ _ _ _ _ ha htok hn hclock
      (Atoi_toDigits pt hpt) (Atoi_toDigits rate hrate)⟩

/-- C7 at the two lines named by the specification. -/
theorem C7_witness :
    ParseARtpMap "a=rtpmap:96 H264/90000".toList =
      .ok { PayloadType := 96, EncodingName := "H264".toList, ClockRate := 90000,
            EncodingParameters := [] } ∧
    ParseARtpMap "a=rtpmap:97 MPEG4-GENERIC/48000/2".toList =
      .ok { PayloadType := 97, EncodingName := "MPEG4-GENERIC".toList, ClockRate := 48000,
            EncodingParameters := "2".toList } :=
  ⟨(C7_rtpmap_roundtrip 96 90000 "H264".toList [] (by decide) (by decide) (by decide)).1,
   (C7_rtpmap_roundtrip 97 48000 "MPEG4-GENERIC".toList "2".toList
      (by decide) (by decide) (by decide)).2⟩


theorem isOk_false_iff {ε α : Type} (x : Except ε α) : x.isOk = false ↔ ∃ e, x = .error e := by
  cases x with
  | error e => simp [Except.isOk, Except.toBool]
  | ok v => simp [Except.isOk, Except.toBool]

/-- C8 (as stated) fails: a payload type that is a base-10 integer but
exceeds the `int` range is rejected although every listed check passes. -/
theorem C8_counterexample :
    ':' ∈ "a=rtpmap:9223372036854775808 H264/90000".toList ∧
    ' ' ∈ after ':' "a=rtpmap:9223372036854775808 H264/90000".toList ∧
    isBase10Int (before ' ' (after ':' "a=rtpmap:9223372036854775808 H264/90000".toList)) = true ∧
    '/' ∈ after ' ' (after ':' "a=rtpmap:9223372036854775808 H264/90000".toList) ∧
    isBase10Int (before '/' (after '/' (after ' ' (after ':'
      "a=rtpmap:9223372036854775808 H264/90000".toList)))) = true ∧
    ParseARtpMap "a=rtpmap:9223372036854775808 H264/90000".toList =
      .error (.NumError "9223372036854775808".toList .ErrRange) := by
  decide

/-- C8 (amended): `ParseARtpMap` returns an error exactly when the line has
no `:`, or the text after the first `:` has no space, or the token before that
space is not a base-10 integer of `int` range, or the rest has no `/`, or the
text between the first and the second `/` (or the end) is not a base-10
integer of `int` range.  The non-numeric payload type `abc` is rejected. -/
theorem C8_rtpmap_error_iff (s : Str) :
    ((ParseARtpMap s).isOk = false ↔
      (':' ∉ s ∨ ' ' ∉ after ':' s ∨
        ¬ (isBase10Int (before ' ' (after ':' s)) = true ∧
            fitsInt (before ' ' (after ':' s)) = true) ∨
        '/' ∉ after ' ' (after ':' s) ∨
        ¬ (isBase10Int (before '/' (after '/' (after ' ' (after ':' s)))) = true ∧
            fitsInt (before '/' (after '/' (after ' ' (after ':' s)))) = true))) ∧
    (ParseARtpMap "a=rtpmap:abc H264/90000".toList).isOk = false := by
  refine ⟨?_, by decide⟩
  rw [ParseARtpMap_eq]
  by_cases h1 : ':' ∈ s
  · by_cases h2 : ' ' ∈ after ':' s
    · simp only [h1, h2, if_true, not_true_eq_false, false_or]
      cases hp : Atoi (before ' ' (after ':' s)) with
      | error e =>
        have := (Atoi_isOk (before ' ' (after ':' s)))
        rw [hp] at this
        simp only [Except.isOk, Except.toBool] at this ⊢
        simp only [true_iff]
        left
        intro hc
        rw [hc.1, hc.2] at this
        cases this
      | ok pt =>
        obtain ⟨a1, a2, _⟩ := Atoi_ok hp
        simp only [a1, a2, and_self, not_true_eq_false, false_or]
        by_cases h3 : '/' ∈ after ' ' (after ':' s)
        · simp only [h3, if_true, not_true_eq_false, false_or]
          cases hq : Atoi (before '/' (after '/' (after ' ' (after ':' s)))) with
          | error e =>
            have := (Atoi_isOk (before '/' (after '/' (after ' ' (after ':' s)))))
            rw [hq] at this
            simp only [Except.isOk, Except.toBool] at this ⊢
            simp only [true_iff]
            intro hc
            rw [hc.1, hc.2] at this
            cases this
          | ok cr =>
            obtain ⟨b1, b2, _⟩ := Atoi_ok hq
            simp [b1, b2, Except.isOk, Except.toBool]
        · simp [h3, Except.isOk, Except.toBool]
    · simp [h1, h2, Except.isOk, Except.toBool]
  · simp [h1, Except.isOk, Except.toBool]


/-! ## `ParseAFmtPBase` -/

theorem mapGet_mapSet (ps : StrMap) (k v k1 : Str) :
    mapGet (mapSet ps k v) k1 = if k = k1 then some v else mapGet ps k1 := by
  induction ps with
  | nil =>
    by_cases h : k = k1
    · simp [mapGet, mapSet, h]
    · simp [mapGet, mapSet, h]
  | cons p ps ih =>
    unfold mapSet
    by_cases hp : p.1 = k
    · by_cases h : k = k1
      · simp [mapGet, hp, h, List.find?_cons]
      · have : ¬ p.1 = k1 := by rw [hp]; exact h
        simp [mapGet, hp, h, List.find?_cons, this]
    · simp only [hp, if_false]
      by_cases h1 : p.1 = k1
      · have : ¬ k = k1 := by rw [← h1]; exact fun e => hp e.symm
        simp [mapGet, List.find?_cons, h1, this]
      · simp only [mapGet, List.find?_cons, h1, decide_False] at ih ⊢
        exact ih

/-- The `fmtp` loop never fails with anything but `ErrSdp`. -/
theorem fmtpLoop_error {items : List Str} {ps : StrMap} {e : SdpError}
    (h : fmtpLoop items ps = .error e) : e = .ErrSdp := by
  induction items generalizing ps with
  | nil => cases h
  | cons pp rest ih =>
    have hs : "=".toList = ['='] := rfl
    simp only [fmtpLoop, hs, SplitN_two] at h
    by_cases h0 : (TrimSpace pp).length ≤ 0
    · simp only [h0, if_true] at h; exact ih h
    · simp only [h0, if_false] at h
      by_cases h1 : '=' ∈ TrimSpace pp
      · simp only [h1, if_true] at h; exact ih h
      · simp only [h1, if_false] at h; cases h; rfl

/-- The `fmtp` loop succeeds exactly when every entry that is non-empty after
trimming contains `=`. -/
theorem fmtpLoop_isOk (items : List Str) (ps : StrMap) :
    (fmtpLoop items ps).isOk = true ↔
      ∀ pp ∈ items, TrimSpace pp ≠ [] → '=' ∈ TrimSpace pp := by
  induction items generalizing ps with
  | nil => simp [fmtpLoop, Except.isOk, Except.toBool]
  | cons pp rest ih =>
    have hs : "=".toList = ['='] := rfl
    simp only [fmtpLoop, hs, SplitN_two, List.mem_cons, forall_eq_or_imp]
    by_cases h0 : (TrimSpace pp).length ≤ 0
    · have : TrimSpace pp = [] := List.length_eq_zero.1 (by omega)
      simp only [h0, if_true, this, ne_eq, not_true_eq_false, false_implies, true_and]
      exact ih ps
    · have : TrimSpace pp ≠ [] := fun e => h0 (by rw [e]; exact Nat.le_refl _)
      simp only [h0, if_false, this, ne_eq, not_false_eq_true, true_implies]
      by_cases h1 : '=' ∈ TrimSpace pp
      · simp only [h1, if_true, ih, true_and]
      · simp [h1, Except.isOk, Except.toBool]

/-- What the `fmtp` loop stores: for each name, the value of the last entry
with that name, or the previous binding if there is none. -/
theorem fmtpLoop_lookup {items : List Str} {ps ps1 : StrMap}
    (h : fmtpLoop items ps = .ok ps1) (k : Str) :
    mapGet ps1 k =
      match ((((items.map TrimSpace).filter (fun e => !e.isEmpty)).filter
          (fun e => before '=' e = k)).getLast?) with
      | some e => some (after '=' e)
      | none => mapGet ps k := by
  induction items generalizing ps with
  | nil => cases h; rfl
  | cons pp rest ih =>
    have hs : "=".toList = ['='] := rfl
    simp only [fmtpLoop, hs, SplitN_two] at h
    by_cases h0 : (TrimSpace pp).length ≤ 0
    · have h00 : TrimSpace pp = [] := List.length_eq_zero.1 (by omega)
      simp only [h0, if_true] at h
      rw [ih h]
      simp [List.filter_cons, h00]
    · have hne : (TrimSpace pp).isEmpty = false := by
        cases ht : TrimSpace pp with
        | nil => rw [ht] at h0; simp at h0
        | cons a b => rfl
      simp only [h0, if_false] at h
      by_cases h1 : '=' ∈ TrimSpace pp
      · simp only [h1, if_true] at h
        rw [ih h, mapGet_mapSet]
        simp only [List.map_cons, List.filter_cons, hne, Bool.not_false, if_true]
        by_cases hk : before '=' (TrimSpace pp) = k
        · simp only [hk, decide_True, if_true, List.getLast?_cons]
          cases (List.filter (fun e => decide (before '=' e = k))
            (List.filter (fun e => !e.isEmpty) (List.map TrimSpace rest))).getLast? with
          | none => rfl
          | some e => rfl
        · simp only [hk, decide_False, Bool.false_eq_true, if_false]
      · simp only [h1, if_false] at h; cases h


/-- `ParseAFmtPBase` in terms of the pieces of the line around its first `:`
and the first space after it. -/
theorem ParseAFmtPBase_eq (s : Str) :
    ParseAFmtPBase s =
      if ':' ∈ s then
        if ' ' ∈ after ':' s then
          match Atoi (before ' ' (after ':' s)) with
          | .error e => .error e
          | .ok f =>
            match fmtpLoop (Split (after ' ' (after ':' s)) ";".toList) [] with
            | .error e => .error e
            | .ok ps => .ok { Format := f, Parameters := ps }
        else .error .ErrSdp
      else .error .ErrSdp := by
  have hc : ":".toList = [':'] := rfl
  have hsp : " ".toList = [' '] := rfl
  unfold ParseAFmtPBase
  rw [hc, SplitN_two]
  by_cases h1 : ':' ∈ s
  · simp only [h1, if_true]
    rw [hsp, SplitN_two]
    by_cases h2 : ' ' ∈ after ':' s
    · simp only [h2, if_true]
    · simp only [h2, if_false]
  · simp only [h1, if_false]

/-- C9: for an accepted line `a=fmtp:<f> <list>`, `Format` is the integer
written by `f` and `Parameters` is exactly the mapping obtained from `list` by
splitting on `;`, trimming, dropping empty entries and splitting each entry at
its first `=`, the last entry of a name giving its value. -/
theorem C9_fmtp_parameters (f list : Str) (r : AFmtPBase) (hf : ' ' ∉ f)
    (hok : ParseAFmtPBase ("a=fmtp:".toList ++ f ++ " ".toList ++ list) = .ok r) :
    isBase10Int f = true ∧ r.Format = intValue f ∧
    ∀ k, mapGet r.Parameters k = fmtpSpecLookup list k := by
  have e1 : "a=fmtp:".toList ++ f ++ " ".toList ++ list =
      "a=fmtp".toList ++ ':' :: (f ++ ' ' :: list) := by
    simp [List.append_assoc]
  have ha : ':' ∉ "a=fmtp".toList := by decide
  have m1 : ':' ∈ "a=fmtp".toList ++ ':' :: (f ++ ' ' :: list) := by simp
  have m2 : ' ' ∈ f ++ ' ' :: list := by simp
  rw [e1, ParseAFmtPBase_eq] at hok
  simp only [m1, if_true, after_append _ _ _ ha, m2, before_append _ _ _ hf,
    after_append _ _ _ hf] at hok
  cases hp : Atoi f with
  | error e => rw [hp] at hok; cases hok
  | ok v =>
    rw [hp] at hok
    obtain ⟨a1, _, a3⟩ := Atoi_ok hp
    cases hl : fmtpLoop (Split list ";".toList) [] with
    | error e => rw [hl] at hok; cases hok
    | ok ps =>
      rw [hl] at hok
      cases hok
      refine ⟨a1, a3, fun k => ?_⟩
      have := fmtpLoop_lookup hl k
      simp only [fmtpSpecLookup, fmtpEntries]
      rw [this]
      cases (List.filter (fun e => decide (before '=' e = k))
        (List.filter (fun e => !e.isEmpty)
          (List.map TrimSpace (Split list ";".toList)))).getLast? with
      | none => rfl
      | some e => rfl

/-- C9 at the line named by the specification: exactly the two parameters
`profile-level-id` and `packetization-mode`, with `Format` 96. -/
theorem C9_witness :
    ParseAFmtPBase "a=fmtp:96 profile-level-id=42e01f;packetization-mode=1".toList =
      .ok { Format := 96,
            Parameters := [("profile-level-id".toList, "42e01f".toList),
                           ("packetization-mode".toList, "1".toList)] } ∧
    isBase10Int "96".toList = true ∧ (96 : Int) = intValue "96".toList ∧
    ∀ k, mapGet [("profile-level-id".toList, "42e01f".toList),
                 ("packetization-mode".toList, "1".toList)] k =
      fmtpSpecLookup "profile-level-id=42e01f;packetization-mode=1".toList k :=
  ⟨by decide,
   C9_fmtp_parameters "96".toList "profile-level-id=42e01f;packetization-mode=1".toList
    { Format := 96,
      Parameters := [("profile-level-id".toList, "42e01f".toList),
                     ("packetization-mode".toList, "1".toList)] }
    (by decide) (by decide)⟩


theorem Atoi_error_ne_ErrSdp {tok : Str} {e : SdpError} (h : Atoi tok = .error e) :
    e ≠ .ErrSdp := by
  obtain ⟨k, hk⟩ := (Atoi_error h).2
  rw [hk]
  intro hc
  cases hc

theorem ParseARtpMap_error {s : Str} {e : SdpError} (h : ParseARtpMap s = .error e) :
    e = .ErrSdp ∨ Atoi (before ' ' (after ':' s)) = .error e ∨
      Atoi (before '/' (after '/' (after ' ' (after ':' s)))) = .error e := by
  rw [ParseARtpMap_eq] at h
  by_cases h1 : ':' ∈ s
  · by_cases h2 : ' ' ∈ after ':' s
    · simp only [h1, h2, if_true] at h
      cases hp : Atoi (before ' ' (after ':' s)) with
      | error e1 => rw [hp] at h; cases h; exact Or.inr (Or.inl rfl)
      | ok pt =>
        rw [hp] at h
        by_cases h3 : '/' ∈ after ' ' (after ':' s)
        · simp only [h3, if_true] at h
          cases hq : Atoi (before '/' (after '/' (after ' ' (after ':' s)))) with
          | error e1 => rw [hq] at h; cases h; exact Or.inr (Or.inr rfl)
          | ok cr => rw [hq] at h; cases h
        · simp only [h3, if_false] at h; cases h; exact Or.inl rfl
    · simp only [h1, h2, if_true, if_false] at h; cases h; exact Or.inl rfl
  · simp only [h1, if_false] at h; cases h; exact Or.inl rfl

theorem ParseAFmtPBase_error {s : Str} {e : SdpError} (h : ParseAFmtPBase s = .error e) :
    e = .ErrSdp ∨ Atoi (before ' ' (after ':' s)) = .error e := by
  rw [ParseAFmtPBase_eq] at h
  by_cases h1 : ':' ∈ s
  · by_cases h2 : ' ' ∈ after ':' s
    · simp only [h1, h2, if_true] at h
      cases hp : Atoi (before ' ' (after ':' s)) with
      | error e1 => rw [hp] at h; cases h; exact Or.inr rfl
      | ok f =>
        rw [hp] at h
        cases hl : fmtpLoop (Split (after ' ' (after ':' s)) ";".toList) [] with
        | error e1 => rw [hl] at h; cases h; exact Or.inl (fmtpLoop_error hl)
        | ok ps => rw [hl] at h; cases h
    · simp only [h1, h2, if_true, if_false] at h; cases h; exact Or.inl rfl
  · simp only [h1, if_false] at h; cases h; exact Or.inl rfl

theorem ParseAControl_error {s : Str} {e : SdpError} (h : ParseAControl s = .error e) :
    e = .ErrSdp := by
  unfold ParseAControl at h
  split_ifs at h
  cases h; rfl

/-- C5 (as stated) fails: a non-numeric payload type, clock rate or fmtp
format makes the parsers return `strconv.Atoi`'s own error, not `ErrSdp`. -/
theorem C5_counterexample :
    ParseARtpMap "a=rtpmap:abc H264/90000".toList =
      .error (.NumError "abc".toList .ErrSyntax) ∧
    ParseARtpMap "a=rtpmap:96 H264/fast".toList =
      .error (.NumError "fast".toList .ErrSyntax) ∧
    ParseAFmtPBase "a=fmtp:x a=b".toList = .error (.NumError "x".toList .ErrSyntax) ∧
    (ParseSdp2RawContext "m=video 0\r\na=rtpmap:abc H264/90000".toList).2 =
      some (.NumError "abc".toList .ErrSyntax) ∧
    SdpError.NumError "abc".toList .ErrSyntax ≠ .ErrSdp := by
  decide

theorem errOf_isOk {α : Type} (x : Except SdpError α) (h : x.isOk = true) : errOf x = none := by
  cases x with
  | error e => simp [Except.isOk, Except.toBool] at h
  | ok v => rfl

theorem accepted_of_not_rejected {lines : List Str}
    (h : ∀ l ∈ lines, ∀ e, ¬ Rejected l e) : AttrsAccepted lines := by
  intro l hl
  refine ⟨fun hp => ?_, fun hp => ?_, fun hp => ?_⟩
  · cases hq : ParseARtpMap l with
    | error e => exact absurd (Or.inr (Or.inl ⟨hp, hq⟩)) (h l hl e)
    | ok v => rfl
  · cases hq : ParseAFmtPBase l with
    | error e => exact absurd (Or.inr (Or.inr (Or.inl ⟨hp, hq⟩))) (h l hl e)
    | ok v => rfl
  · cases hq : ParseAControl l with
    | error e => exact absurd (Or.inr (Or.inr (Or.inr ⟨hp, hq⟩))) (h l hl e)
    | ok v => rfl

/-- The driver's error is exactly the error of its first rejected line. -/
theorem driver_error_iff (b : Str) (e : SdpError) :
    (ParseSdp2RawContext b).2 = some e ↔
      ∃ pre bad post, Split b crlf = pre ++ bad :: post ∧
        (∀ l ∈ pre, ∀ e1, ¬ Rejected l e1) ∧ Rejected bad e := by
  constructor
  · intro h
    cases hr : ParseSdp2RawContext b with
    | mk c oe =>
      rw [hr] at h
      cases h
      obtain ⟨pre, bad, post, st1, e1, _, e3, _, e5⟩ := loop_error (parseLines_error hr)
      exact ⟨pre, bad, post, e1, e3, e5⟩
  · rintro ⟨pre, bad, post, hs, hpre, hbad⟩
    obtain ⟨st1, h1, _⟩ := loop_media pre { sdpCtx := { MediaDescList := [] }, md := none }
      (accepted_of_not_rejected hpre)
    have hl : loop { sdpCtx := { MediaDescList := [] }, md := none } (pre ++ bad :: post) =
        .error (st1.sdpCtx, e) := by
      rw [loop_append, h1]
      simp only [loop_cons, loopBody_of_rejected st1 hbad]
    unfold ParseSdp2RawContext
    rw [hs, parseLines_of_error hl]

theorem errOf_ParseARtpMap (s : Str) :
    errOf (ParseARtpMap s) =
      if ':' ∈ s ∧ ' ' ∈ after ':' s then
        match errOf (Atoi (before ' ' (after ':' s))) with
        | some e => some e
        | none =>
          if '/' ∈ after ' ' (after ':' s) then
            errOf (Atoi (before '/' (after '/' (after ' ' (after ':' s)))))
          else some .ErrSdp
      else some .ErrSdp := by
  rw [ParseARtpMap_eq]
  by_cases h1 : ':' ∈ s
  · by_cases h2 : ' ' ∈ after ':' s
    · simp only [h1, h2, and_self, if_true]
      cases Atoi (before ' ' (after ':' s)) with
      | error e => rfl
      | ok pt =>
        simp only [errOf]
        by_cases h3 : '/' ∈ after ' ' (after ':' s)
        · simp only [h3, if_true]
          cases Atoi (before '/' (after '/' (after ' ' (after ':' s)))) with
          | error e => rfl
          | ok cr => rfl
        · simp only [h3, if_false]
    · simp only [h1, h2, and_false, if_true, if_false, errOf]
  · simp only [h1, false_and, if_false, errOf]

theorem errOf_ParseAFmtPBase (s : Str) :
    errOf (ParseAFmtPBase s) =
      if ':' ∈ s ∧ ' ' ∈ after ':' s then
        match errOf (Atoi (before ' ' (after ':' s))) with
        | some e => some e
        | none =>
          if ∃ pp ∈ Split (after ' ' (after ':' s)) ";".toList,
              TrimSpace pp ≠ [] ∧ '=' ∉ TrimSpace pp then some .ErrSdp
          else none
      else some .ErrSdp := by
  rw [ParseAFmtPBase_eq]
  by_cases h1 : ':' ∈ s
  · by_cases h2 : ' ' ∈ after ':' s
    · simp only [h1, h2, and_self, if_true]
      cases Atoi (before ' ' (after ':' s)) with
      | error e => rfl
      | ok f =>
        simp only [errOf]
        have hloop := fmtpLoop_isOk (Split (after ' ' (after ':' s)) ";".toList) []
        cases hl : fmtpLoop (Split (after ' ' (after ':' s)) ";".toList) [] with
        | error e =>
          rw [hl] at hloop
          have hbad : ∃ pp ∈ Split (after ' ' (after ':' s)) ";".toList,
              TrimSpace pp ≠ [] ∧ '=' ∉ TrimSpace pp := by
            by_contra hc
            have : (Except.error e : Except SdpError StrMap).isOk = true :=
              hloop.2 (fun pp hpp hne => by
                by_contra hm
                exact hc ⟨pp, hpp, hne, hm⟩)
            simp [Except.isOk, Except.toBool] at this
          rw [if_pos hbad, fmtpLoop_error hl]
        | ok ps =>
          rw [hl] at hloop
          have hgood : ¬ ∃ pp ∈ Split (after ' ' (after ':' s)) ";".toList,
              TrimSpace pp ≠ [] ∧ '=' ∉ TrimSpace pp := by
            rintro ⟨pp, hpp, hne, hm⟩
            exact hm (hloop.1 rfl pp hpp hne)
          rw [if_neg hgood]
    · simp only [h1, h2, and_false, if_true, if_false, errOf]
  · simp only [h1, false_and, if_false, errOf]

/-- C5 (amended): the error of each parser, exactly.  `ParseM` returns none.
`ParseAControl` returns `ErrSdp` when the `a=control:` prefix is missing.
`ParseARtpMap` and `ParseAFmtPBase` return `ErrSdp` for a structural failure
(missing `:`, space, `/` or `=`) and, for an integer field that
`strconv.Atoi` rejects, Atoi's own error unchanged.  `ParseSdp2RawContext`
returns the error of its first rejected line unchanged.  An Atoi error is a
`NumError` of the token, never `ErrSdp`. -/
theorem C5_error_kinds (s : Str) :
    errOf (ParseM s) = none ∧
    errOf (ParseAControl s) = (if HasPrefix s controlColon = true then none else some .ErrSdp) ∧
    errOf (ParseARtpMap s) =
      (if ':' ∈ s ∧ ' ' ∈ after ':' s then
        match errOf (Atoi (before ' ' (after ':' s))) with
        | some e => some e
        | none =>
          if '/' ∈ after ' ' (after ':' s) then
            errOf (Atoi (before '/' (after '/' (after ' ' (after ':' s)))))
          else some .ErrSdp
      else some .ErrSdp) ∧
    errOf (ParseAFmtPBase s) =
      (if ':' ∈ s ∧ ' ' ∈ after ':' s then
        match errOf (Atoi (before ' ' (after ':' s))) with
        | some e => some e
        | none =>
          if ∃ pp ∈ Split (after ' ' (after ':' s)) ";".toList,
              TrimSpace pp ≠ [] ∧ '=' ∉ TrimSpace pp then some .ErrSdp
          else none
      else some .ErrSdp) ∧
    (∀ e, (ParseSdp2RawContext s).2 = some e ↔
      ∃ pre bad post, Split s crlf = pre ++ bad :: post ∧
        (∀ l ∈ pre, ∀ e1, ¬ Rejected l e1) ∧ Rejected bad e) ∧
    (∀ e, errOf (Atoi s) = some e → e ≠ .ErrSdp ∧ ∃ k, e = .NumError s k) ∧
    (errOf (Atoi s) = none ↔ isBase10Int s = true ∧ fitsInt s = true) := by
  refine ⟨by rw [ParseM_eq]; rfl, ?_, errOf_ParseARtpMap s, errOf_ParseAFmtPBase s,
    driver_error_iff s, ?_, ?_⟩
  · unfold ParseAControl controlColon
    cases h : HasPrefix s "a=control:".toList <;> simp [errOf]
  · intro e h
    cases ha : Atoi s with
    | error e1 =>
      rw [ha] at h
      cases h
      exact ⟨Atoi_error_ne_ErrSdp ha, (Atoi_error ha).2⟩
    | ok v => rw [ha] at h; cases h
  · cases ha : Atoi s with
    | error e1 =>
      have := (Atoi_error ha).1
      constructor
      · intro h; cases h
      · rintro ⟨a1, a2⟩
        rcases this with h | h
        · rw [a1] at h; cases h
        · rw [a2] at h; cases h
    | ok v =>
      obtain ⟨a1, a2, _⟩ := Atoi_ok ha
      simp [errOf, a1, a2]


/-! ## `Split` cuts as often as `strings.Split` -/

theorem Index_nil (sep : Str) (h : sep ≠ []) : Index [] sep = none := by
  simp [Index, h]

/-- Allowing more than `len(s)` cuts changes nothing: the pieces of `Split`
are those of the unbounded cutting loop of `strings.Split`. -/
theorem genSplit_enough (sep : Str) (hsep : sep ≠ []) (k1 k2 : Nat) (s : Str)
    (h1 : s.length ≤ k1) (h2 : s.length ≤ k2) :
    genSplit sep k1 s = genSplit sep k2 s := by
  induction k1 generalizing k2 s with
  | zero =>
    have hs : s = [] := List.length_eq_zero.1 (by omega)
    subst hs
    cases k2 with
    | zero => rfl
    | succ k => simp [genSplit, Index_nil sep hsep]
  | succ k ih =>
    cases k2 with
    | zero =>
      have hs : s = [] := List.length_eq_zero.1 (by omega)
      subst hs
      simp [genSplit, Index_nil sep hsep]
    | succ j =>
      simp only [genSplit]
      cases hi : Index s sep with
      | none => rfl
      | some m =>
        have hpos : 0 < sep.length := List.length_pos.2 hsep
        have hne : s ≠ [] := by
          intro e; rw [e, Index_nil sep hsep] at hi; cases hi
        have hlen : 0 < s.length := List.length_pos.2 hne
        have hd : (s.drop (m + sep.length)).length ≤ s.length - 1 := by
          rw [List.length_drop]; omega
        simp only
        rw [ih j (s.drop (m + sep.length)) (by omega) (by omega)]


/-! ## `ParseAControl` and `ParseM` on every input -/

theorem HasPrefix_append (p v : Str) : HasPrefix (p ++ v) p = true := by
  rw [HasPrefix_iff]; exact List.prefix_append p v

/-- C11: `ParseAControl` succeeds exactly on the lines that start with
`a=control:`, and then `Value` is all the text after that prefix, unprocessed:
`ParseAControl ("a=control:" ++ v)` returns `v` for every `v`. -/
theorem C11_control_value (s v : Str) :
    ((ParseAControl s).isOk = HasPrefix s "a=control:".toList) ∧
    ParseAControl ("a=control:".toList ++ v) = .ok { Value := v } ∧
    ParseAControl "a=control:streamid=0".toList = .ok { Value := "streamid=0".toList } ∧
    ParseAControl "a=control:".toList = .ok { Value := [] } ∧
    ParseAControl "a=control: x ".toList = .ok { Value := " x ".toList } ∧
    ParseAControl "a=control:a=control:y".toList = .ok { Value := "a=control:y".toList } := by
  refine ⟨?_, ?_, by decide, by decide, by decide, by decide⟩
  · unfold ParseAControl
    cases h : HasPrefix s "a=control:".toList <;> simp [Except.isOk, Except.toBool]
  · have h := HasPrefix_append "a=control:".toList v
    simp only [ParseAControl, TrimPrefix, h, not_true_eq_false, if_false, if_true,
      List.drop_left]

/-- C12: `ParseM` never returns an error: `strings.Split` always yields at
least one field, and `Media` is the text after a leading `m=` up to the first
space.  The line `m=` is accepted with an empty media type, also through the
driver. -/
theorem C12_parseM_total (s t : Str) :
    Split (TrimPrefix s mPrefix) " ".toList ≠ [] ∧
    ParseM s = .ok { Media := before ' ' (TrimPrefix s mPrefix) } ∧
    ParseM (mPrefix ++ t) = .ok { Media := before ' ' t } ∧
    ParseM "m=".toList = .ok { Media := [] } ∧
    ParseSdp2RawContext "m=".toList =
      ({ MediaDescList := [newMediaDesc { Media := [] }] }, none) := by
  refine ⟨?_, ParseM_eq s, ?_, by decide, by decide⟩
  · obtain ⟨r, hr⟩ := Split_single_head ' ' (TrimPrefix s mPrefix)
    have : " ".toList = [' '] := rfl
    rw [this, hr]
    exact List.cons_ne_nil _ _
  · rw [ParseM_eq]
    simp only [TrimPrefix, HasPrefix_append, if_true, List.drop_left]

/-- C14: the empty input yields no error and an empty `MediaDescList`. -/
theorem C14_empty_input :
    ParseSdp2RawContext [] = ({ MediaDescList := [] }, none) := by
  decide


/-! ## Presence of `AFmtPBase` -/

theorem lastLine_eq_none_iff (p : Str) (block : List Str) :
    lastLine p block = none ↔ ∀ l ∈ block, HasPrefix l p = false := by
  unfold lastLine
  rw [List.getLast?_eq_none_iff, List.filter_eq_nil_iff]
  constructor
  · intro h l hl
    cases hp : HasPrefix l p with
    | false => rfl
    | true => exact absurd hp (h l hl)
  · intro h l hl hp
    rw [h l hl] at hp
    cases hp

/-- C15: in a successful parse, the description of a media block (the lines
from an `m=` line up to the next `m=` line or the end of input) has
`AFmtPBase` present exactly when some line of the block begins with `a=fmtp`;
what earlier blocks held does not matter. -/
theorem C15_fmtp_present_iff (b : Str) (pre block post : List Str) (mline : Str)
    (r : RawContext)
    (hsplit : Split b crlf = pre ++ mline :: (block ++ post))
    (hm : HasPrefix mline mPrefix = true)
    (hblock : ∀ l ∈ block, HasPrefix l mPrefix = false)
    (hpost : ∀ l, post.head? = some l → HasPrefix l mPrefix = true)
    (hok : ParseSdp2RawContext b = (r, none)) :
    ∃ d, r.MediaDescList[(pre.filter (fun l => HasPrefix l mPrefix)).length]? = some d ∧
      (d.AFmtPBase ≠ none ↔ ∃ l ∈ block, HasPrefix l fmtpPrefix = true) := by
  unfold ParseSdp2RawContext at hok
  rw [hsplit] at hok
  obtain ⟨st, hst, hr⟩ := parseLines_ok hok
  obtain ⟨d, hd, _, _, _, hf1, hf2, _, _⟩ := loop_block_desc hm hblock hpost hst
  rw [hr] at hd
  refine ⟨d, hd, ?_⟩
  cases hl : lastLine fmtpPrefix block with
  | none =>
    have h0 : d.AFmtPBase = none := hf2 hl
    have hno := (lastLine_eq_none_iff fmtpPrefix block).1 hl
    constructor
    · intro h; exact absurd h0 h
    · rintro ⟨l, hmem, hp⟩
      rw [hno l hmem] at hp
      cases hp
  | some l =>
    obtain ⟨v, _, hv⟩ := hf1 l hl
    constructor
    · intro _
      by_contra hc
      have : lastLine fmtpPrefix block = none :=
        (lastLine_eq_none_iff fmtpPrefix block).2 (fun x hx => by
          cases hp : HasPrefix x fmtpPrefix with
          | false => rfl
          | true => exact absurd ⟨x, hx, hp⟩ hc)
      rw [this] at hl
      cases hl
    · intro _
      rw [hv]
      exact Option.some_ne_none v

/-- C15 on a second block without `a=fmtp` after a first block that has one. -/
theorem C15_witness :
    ∃ d, (ParseSdp2RawContext
        "m=video 0\r\na=fmtp:96 a=1\r\nm=audio 0\r\na=rtpmap:97 X/1".toList).1.MediaDescList[1]?
          = some d ∧ d.AFmtPBase = none := by
  obtain ⟨d, h0, h1⟩ := C15_fmtp_present_iff
    "m=video 0\r\na=fmtp:96 a=1\r\nm=audio 0\r\na=rtpmap:97 X/1".toList
    ["m=video 0".toList, "a=fmtp:96 a=1".toList] ["a=rtpmap:97 X/1".toList] []
    "m=audio 0".toList
    (ParseSdp2RawContext
        "m=video 0\r\na=fmtp:96 a=1\r\nm=audio 0\r\na=rtpmap:97 X/1".toList).1
    (by decide) (by decide) (by decide) (by intro l h; cases h) (by decide)
  refine ⟨d, h0, ?_⟩
  by_contra hc
  obtain ⟨l, hl, hp⟩ := h1.1 hc
  revert hp
  revert l
  decide


/-! ## The driver dispatches exclusively -/

theorem specBody_eq (st : LoopState) (line : Str) : loopBody st line = specBody st line := by
  rcases line_cases line with hm | hr | hf | hcn | ⟨h0, h1, h2, h3⟩
  · rw [loopBody_m st line hm]
    simp only [specBody, hm, if_true, ParseM_of_prefix line hm]
  · obtain ⟨e0, e2, e3⟩ := prefix_rtpmap_excl line hr
    rw [loopBody_rtpmap st line hr]
    simp only [specBody, e0, hr, if_true, Bool.false_eq_true, if_false]
    cases ParseARtpMap line with
    | error e => rfl
    | ok a => cases st with
      | mk ctx md => cases md <;> rfl
  · obtain ⟨e0, e1, e3⟩ := prefix_fmtp_excl line hf
    rw [loopBody_fmtp st line hf]
    simp only [specBody, e0, e1, hf, if_true, Bool.false_eq_true, if_false]
    cases ParseAFmtPBase line with
    | error e => rfl
    | ok a => cases st with
      | mk ctx md => cases md <;> rfl
  · obtain ⟨e0, e1, e2⟩ := prefix_control_excl line hcn
    rw [loopBody_control st line hcn]
    simp only [specBody, e0, e1, e2, hcn, if_true, Bool.false_eq_true, if_false]
    cases ParseAControl line with
    | error e => rfl
    | ok a => cases st with
      | mk ctx md => cases md <;> rfl
  · rw [loopBody_other st line h0 h1 h2 h3]
    simp only [specBody, h0, h1, h2, h3, Bool.false_eq_true, if_false]

theorem specLoop_eq (st : LoopState) (lines : List Str) : loop st lines = specLoop st lines := by
  induction lines generalizing st with
  | nil => rfl
  | cons x xs ih =>
    simp only [loop, specLoop, specBody_eq]
    cases specBody st x with
    | error r => rfl
    | ok st1 => exact ih st1

/-- C17: no line begins with more than one of the routing prefixes `m=`,
`a=rtpmap`, `a=fmtp`, `a=control`; hence the four independent `if` blocks of
the driver act as the exclusive if / else-if dispatch of the specification,
step by step and on whole inputs. -/
theorem C17_exclusive_dispatch (st : LoopState) (line b : Str) :
    prefixCount line ≤ 1 ∧
    loopBody st line = specBody st line ∧
    ParseSdp2RawContext b = specParse b := by
  refine ⟨?_, specBody_eq st line, ?_⟩
  · unfold prefixCount
    rcases line_cases line with hm | hr | hf | hcn | ⟨h0, h1, h2, h3⟩
    · obtain ⟨e1, e2, e3⟩ := prefix_m_excl line hm
      simp [hm, e1, e2, e3]
    · obtain ⟨e1, e2, e3⟩ := prefix_rtpmap_excl line hr
      simp [hr, e1, e2, e3]
    · obtain ⟨e1, e2, e3⟩ := prefix_fmtp_excl line hf
      simp [hf, e1, e2, e3]
    · obtain ⟨e1, e2, e3⟩ := prefix_control_excl line hcn
      simp [hcn, e1, e2, e3]
    · simp [h0, h1, h2, h3]
  · simp only [ParseSdp2RawContext, parseLines, specParse, specLoop_eq]

/-! ## `a=control` lines without the colon -/

/-- C20: a line that begins with `a=control` but not with `a=control:` is
routed to `ParseAControl` and rejected: when the attribute lines before it
are all accepted, `ParseSdp2RawContext` fails with `ErrSdp`, whether or not
an `m=` line precedes it. -/
theorem C20_control_without_colon (b : Str) (pre post : List Str) (bad : Str)
    (hsplit : Split b crlf = pre ++ bad :: post)
    (hpre : AttrsAccepted pre)
    (hbad : HasPrefix bad controlPrefix = true)
    (hcolon : HasPrefix bad controlColon = false) :
    (ParseSdp2RawContext b).2 = some .ErrSdp := by
  obtain ⟨st1, h1, _⟩ := loop_media pre { sdpCtx := { MediaDescList := [] }, md := none } hpre
  have hp : ParseAControl bad = .error .ErrSdp := by
    unfold controlColon at hcolon
    simp only [ParseAControl, hcolon, Bool.false_eq_true, not_false_eq_true, if_true]
  have hb : loopBody st1 bad = .error (st1.sdpCtx, .ErrSdp) := by
    rw [loopBody_control st1 bad hbad, hp]
  have hl : loop { sdpCtx := { MediaDescList := [] }, md := none } (pre ++ bad :: post) =
      .error (st1.sdpCtx, .ErrSdp) := by
    rw [loop_append, h1]
    simp only [loop_cons, hb]
  unfold ParseSdp2RawContext
  rw [hsplit, parseLines_of_error hl]

/-- C20 on `a=controls:x` after an `m=` line and on `a=control` with no
`m=` line before it. -/
theorem C20_witness :
    (ParseSdp2RawContext "m=video 0\r\na=controls:x\r\nm=audio 0".toList).2 = some .ErrSdp ∧
    (ParseSdp2RawContext "v=0\r\na=control".toList).2 = some .ErrSdp :=
  ⟨C20_control_without_colon "m=video 0\r\na=controls:x\r\nm=audio 0".toList
      ["m=video 0".toList] ["m=audio 0".toList] "a=controls:x".toList
      (by decide) (by decide) (by decide) (by decide),
   C20_control_without_colon "v=0\r\na=control".toList
      ["v=0".toList] [] "a=control".toList
      (by decide) (by decide) (by decide) (by decide)⟩


/-! ## The attribute name is not inspected -/

theorem ParseARtpMap_after_colon (p v : Str) (hp : ':' ∉ p) :
    ParseARtpMap (p ++ ":".toList ++ v) = ParseARtpMap (':' :: v) := by
  have e : p ++ ":".toList ++ v = p ++ ':' :: v := by simp
  have m1 : ':' ∈ p ++ ':' :: v := by simp
  have m2 : ':' ∈ ':' :: v := by simp
  have a2 : after ':' (':' :: v) = v := after_append ':' [] v (by simp)
  rw [e, ParseARtpMap_eq, ParseARtpMap_eq (':' :: v)]
  simp only [m1, m2, if_true, after_append _ _ _ hp, a2]

theorem ParseAFmtPBase_after_colon (p v : Str) (hp : ':' ∉ p) :
    ParseAFmtPBase (p ++ ":".toList ++ v) = ParseAFmtPBase (':' :: v) := by
  have e : p ++ ":".toList ++ v = p ++ ':' :: v := by simp
  have m1 : ':' ∈ p ++ ':' :: v := by simp
  have m2 : ':' ∈ ':' :: v := by simp
  have a2 : after ':' (':' :: v) = v := after_append ':' [] v (by simp)
  rw [e, ParseAFmtPBase_eq, ParseAFmtPBase_eq (':' :: v)]
  simp only [m1, m2, if_true, after_append _ _ _ hp, a2]

/-- C19: the results of `ParseARtpMap` and `ParseAFmtPBase` depend only on
the text after the first `:` of the line, not on the attribute name before
it; so the driver, which routes on `a=rtpmap` without the colon, accepts
`a=rtpmapXYZ:96 H264/90000` inside a media block and stores
`{96, "H264", 90000, ""}` as the block's `ARtpMap`. -/
theorem C19_attribute_name_ignored (p q v : Str) (hp : ':' ∉ p) (hq : ':' ∉ q) :
    ParseARtpMap (p ++ ":".toList ++ v) = ParseARtpMap (q ++ ":".toList ++ v) ∧
    ParseAFmtPBase (p ++ ":".toList ++ v) = ParseAFmtPBase (q ++ ":".toList ++ v) ∧
    ParseSdp2RawContext "m=video 0\r\na=rtpmapXYZ:96 H264/90000".toList =
      ({ MediaDescList :=
          [{ M := { Media := "video".toList },
             ARtpMap := { PayloadType := 96, EncodingName := "H264".toList, ClockRate := 90000,
                          EncodingParameters := [] },
             AFmtPBase := none,
             AControl := { Value := [] } }] }, none) := by
  refine ⟨?_, ?_, by decide⟩
  · rw [ParseARtpMap_after_colon p v hp, ParseARtpMap_after_colon q v hq]
  · rw [ParseAFmtPBase_after_colon p v hp, ParseAFmtPBase_after_colon q v hq]

/-- C19 on the attribute names `a=rtpmapXYZ` and `a=rtpmap`. -/
theorem C19_witness :
    ParseARtpMap ("a=rtpmapXYZ".toList ++ ":".toList ++ "96 H264/90000".toList) =
      ParseARtpMap ("a=rtpmap".toList ++ ":".toList ++ "96 H264/90000".toList) ∧
    ParseAFmtPBase ("a=rtpmapXYZ".toList ++ ":".toList ++ "96 H264/90000".toList) =
      ParseAFmtPBase ("a=rtpmap".toList ++ ":".toList ++ "96 H264/90000".toList) :=
  ⟨(C19_attribute_name_ignored "a=rtpmapXYZ".toList "a=rtpmap".toList "96 H264/90000".toList
      (by decide) (by decide)).1,
   (C19_attribute_name_ignored "a=rtpmapXYZ".toList "a=rtpmap".toList "96 H264/90000".toList
      (by decide) (by decide)).2.1⟩


/-! ## Splitting a joined text -/

theorem Index_some {s sep : Str} {m : Nat} (h : Index s sep = some m) :
    m + sep.length ≤ s.length ∧ s = s.take m ++ sep ++ s.drop (m + sep.length) := by
  induction s generalizing m with
  | nil =>
    simp only [Index] at h
    by_cases hs : sep = []
    · simp only [hs, if_true, Option.some.injEq] at h
      subst h; subst hs; simp
    · simp [hs] at h
  | cons c cs ih =>
    simp only [Index] at h
    by_cases hp : HasPrefix (c :: cs) sep = true
    · simp only [hp, if_true, Option.some.injEq] at h
      subst h
      obtain ⟨t, ht⟩ := (HasPrefix_iff _ _).1 hp
      constructor
      · have := congrArg List.length ht
        simp at this ⊢; omega
      · simp only [List.take_zero, List.nil_append, Nat.zero_add]
        rw [← ht, List.drop_left]
    · simp only [hp, Bool.false_eq_true, if_false] at h
      cases hi : Index cs sep with
      | none => rw [hi] at h; cases h
      | some k =>
        rw [hi] at h
        simp only [Option.map_some', Option.some.injEq] at h
        subst h
        obtain ⟨h1, h2⟩ := ih hi
        constructor
        · simp only [List.length_cons]; omega
        · have e : k + 1 + sep.length = (k + sep.length) + 1 := by omega
          rw [e, List.take_succ_cons, List.drop_succ_cons]
          simp only [List.cons_append]
          rw [← h2]

theorem Index_none_of_not_infix {s sep : Str} (h : ¬ sep <:+: s) : Index s sep = none := by
  cases hi : Index s sep with
  | none => rfl
  | some m =>
    exfalso
    apply h
    exact ⟨s.take m, s.drop (m + sep.length), (Index_some hi).2.symm⟩

theorem HasPrefix_crlf_append (c : Char) (cs b : Str) :
    HasPrefix (c :: cs ++ crlf ++ b) crlf = HasPrefix (c :: cs) crlf := by
  cases cs with
  | nil =>
    by_cases hc : c = '\r' <;> simp [HasPrefix, crlf, List.isPrefixOf, hc]
  | cons d ds => simp [HasPrefix, crlf, List.isPrefixOf]

theorem Index_crlf_append (a b : Str) :
    Index (a ++ crlf ++ b) crlf =
      match Index a crlf with
      | some m => some m
      | none => some a.length := by
  induction a with
  | nil =>
    have : Index [] crlf = none := by decide
    rw [this]
    cases b <;> rfl
  | cons c cs ih =>
    have e : c :: cs ++ crlf ++ b = c :: (cs ++ crlf ++ b) := by simp
    have hp := HasPrefix_crlf_append c cs b
    rw [e] at hp ⊢
    simp only [Index, hp]
    by_cases h : HasPrefix (c :: cs) crlf = true
    · simp only [h, if_true]
    · simp only [h, Bool.false_eq_true, if_false, ih]
      cases Index cs crlf with
      | none => simp
      | some k => simp

theorem genSplit_crlf_append (k1 : Nat) (a b : Str) (k k2 : Nat)
    (h1 : a.length ≤ k1) (hk : (a ++ crlf ++ b).length ≤ k) (h2 : b.length ≤ k2) :
    genSplit crlf k (a ++ crlf ++ b) = genSplit crlf k1 a ++ genSplit crlf k2 b := by
  have hcr : crlf ≠ [] := by decide
  have hlen : crlf.length = 2 := rfl
  induction k1 generalizing a k with
  | zero =>
    have ha : a = [] := List.length_eq_zero.1 (by omega)
    subst ha
    simp only [List.nil_append, genSplit_zero, List.singleton_append]
    cases k with
    | zero => simp [hlen] at hk
    | succ j =>
      have hi : Index (crlf ++ b) crlf = some 0 := by
        have := Index_crlf_append [] b
        simpa using this
      simp only [genSplit, hi, List.take_zero, Nat.zero_add, List.drop_left]
      rw [genSplit_enough crlf hcr j k2 b (by simp [hlen] at hk; omega) h2]
  | succ n ih =>
    cases k with
    | zero => simp [hlen] at hk
    | succ j =>
      have hi := Index_crlf_append a b
      simp only [genSplit]
      cases ha : Index a crlf with
      | none =>
        rw [ha] at hi
        simp only [hi]
        have e1 : (a ++ crlf ++ b).take a.length = a := by
          rw [List.append_assoc, List.take_left]
        have e2 : (a ++ crlf ++ b).drop (a.length + crlf.length) = b := by
          rw [← List.length_append, List.drop_left]
        rw [e1, e2]
        simp only [List.singleton_append, List.cons.injEq, true_and]
        exact genSplit_enough crlf hcr j k2 b
          (by simp [hlen] at hk; omega) h2
      | some m =>
        rw [ha] at hi
        simp only [hi]
        obtain ⟨hm, _⟩ := Index_some ha
        have e1 : (a ++ crlf ++ b).take m = a.take m := by
          rw [List.append_assoc, List.take_append_of_le_length (by omega)]
        have e2 : (a ++ crlf ++ b).drop (m + crlf.length) =
            a.drop (m + crlf.length) ++ crlf ++ b := by
          rw [List.append_assoc, List.drop_append_of_le_length hm, List.append_assoc]
        rw [e1, e2]
        simp only [List.cons_append, List.cons.injEq, true_and]
        apply ih
        · rw [List.length_drop]; omega
        · simp only [List.length_append, List.length_drop] at hk ⊢; omega

theorem Split_crlf_append (a b : Str) :
    Split (a ++ crlf ++ b) crlf = Split a crlf ++ Split b crlf := by
  unfold Split
  exact genSplit_crlf_append a.length a b _ b.length (Nat.le_refl _) (Nat.le_refl _)
    (Nat.le_refl _)

theorem Split_of_no_crlf (x : Str) (h : ¬ crlf <:+: x) : Split x crlf = [x] := by
  unfold Split
  cases hl : x.length with
  | zero => rfl
  | succ n => simp only [genSplit, Index_none_of_not_infix h]

theorem Split_joinCrlf (L : List Str) (h : L ≠ []) :
    Split (joinCrlf L) crlf = L.flatMap (fun l => Split l crlf) := by
  induction L with
  | nil => exact absurd rfl h
  | cons x xs ih =>
    cases xs with
    | nil => simp [joinCrlf]
    | cons y ys =>
      simp only [joinCrlf, Split_crlf_append, List.flatMap_cons]
      rw [ih (List.cons_ne_nil _ _)]
      simp only [List.flatMap_cons]


/-! ## Unrecognized lines -/

theorem parseLines_insert (A B : List Str) (x : Str)
    (h0 : HasPrefix x mPrefix = false) (h1 : HasPrefix x rtpmapPrefix = false)
    (h2 : HasPrefix x fmtpPrefix = false) (h3 : HasPrefix x controlPrefix = false) :
    parseLines (A ++ x :: B) = parseLines (A ++ B) := by
  simp only [parseLines, loop_append]
  cases loop { sdpCtx := { MediaDescList := [] }, md := none } A with
  | error r => rfl
  | ok st => simp only [loop_cons, loopBody_other st x h0 h1 h2 h3]

/-- C13: a line that contains no `\r\n` and begins with none of `m=`,
`a=rtpmap`, `a=fmtp`, `a=control` is ignored: inserting it at any position of
a sequence of lines leaves the result of `ParseSdp2RawContext` on the
`\r\n`-joined text unchanged, error and `MediaDescList` alike. -/
theorem C13_unrecognized_line_ignored (L1 L2 : List Str) (x : Str)
    (hx : ¬ crlf <:+: x)
    (h0 : HasPrefix x mPrefix = false) (h1 : HasPrefix x rtpmapPrefix = false)
    (h2 : HasPrefix x fmtpPrefix = false) (h3 : HasPrefix x controlPrefix = false) :
    ParseSdp2RawContext (joinCrlf (L1 ++ x :: L2)) = ParseSdp2RawContext (joinCrlf (L1 ++ L2)) := by
  unfold ParseSdp2RawContext
  rw [Split_joinCrlf (L1 ++ x :: L2) (by simp)]
  simp only [List.flatMap_append, List.flatMap_cons, Split_of_no_crlf x hx, List.singleton_append]
  rw [parseLines_insert _ _ x h0 h1 h2 h3]
  by_cases hL : L1 ++ L2 = []
  · obtain ⟨e1, e2⟩ := List.append_eq_nil.1 hL
    subst e1; subst e2
    decide
  · rw [Split_joinCrlf (L1 ++ L2) hL, List.flatMap_append]

/-- C13 on an empty line, a blank line and a session-level line. -/
theorem C13_witness :
    ParseSdp2RawContext (joinCrlf (["m=video 0".toList] ++ [] :: ["a=rtpmap:96 H264/90000".toList])) =
      ParseSdp2RawContext (joinCrlf (["m=video 0".toList] ++ ["a=rtpmap:96 H264/90000".toList])) ∧
    ParseSdp2RawContext (joinCrlf ([] ++ "  ".toList :: ["m=video 0".toList])) =
      ParseSdp2RawContext (joinCrlf ([] ++ ["m=video 0".toList])) ∧
    ParseSdp2RawContext (joinCrlf (["m=video 0".toList] ++ "v=0".toList :: [])) =
      ParseSdp2RawContext (joinCrlf (["m=video 0".toList] ++ [])) :=
  ⟨C13_unrecognized_line_ignored _ _ [] (by decide) (by decide) (by decide) (by decide)
      (by decide),
   C13_unrecognized_line_ignored _ _ "  ".toList (by decide) (by decide) (by decide)
      (by decide) (by decide),
   C13_unrecognized_line_ignored _ _ "v=0".toList (by decide) (by decide) (by decide)
      (by decide) (by decide)⟩

/-! ## Only `\r\n` delimits lines -/

theorem parseLines_single_length (b : Str) :
    (parseLines [b]).1.MediaDescList.length ≤ 1 := by
  cases h : loop { sdpCtx := { MediaDescList := [] }, md := none } [b] with
  | error p =>
    obtain ⟨c, e⟩ := p
    rw [parseLines_of_error h]
    simp only [loop_cons] at h
    cases hb : loopBody { sdpCtx := { MediaDescList := [] }, md := none } b with
    | error r =>
      rw [hb] at h
      cases h
      obtain ⟨hc, _⟩ := loopBody_error hb
      rw [hc]
      exact Nat.zero_le _
    | ok st => rw [hb] at h; cases h
  | ok st =>
    rw [parseLines_of_ok h]
    have := congrArg List.length (loop_ok_media h)
    have h0 : (flush { sdpCtx := { MediaDescList := [] }, md := none }).MediaDescList = [] := rfl
    rw [h0] at this
    simp only [List.length_map, List.map_nil, List.nil_append] at this
    rw [this]
    exact (List.length_filter_le _ _).trans (Nat.le_refl _)

/-- The driver on a single line, by kind of line. -/
theorem parseLines_single (b : Str) :
    (HasPrefix b mPrefix = true →
      parseLines [b] =
        ({ MediaDescList := [newMediaDesc { Media := mediaField b }] }, none)) ∧
    (HasPrefix b rtpmapPrefix = true →
      parseLines [b] = ({ MediaDescList := [] }, errOf (ParseARtpMap b))) ∧
    (HasPrefix b fmtpPrefix = true →
      parseLines [b] = ({ MediaDescList := [] }, errOf (ParseAFmtPBase b))) ∧
    (HasPrefix b controlPrefix = true →
      parseLines [b] = ({ MediaDescList := [] }, errOf (ParseAControl b))) ∧
    (HasPrefix b mPrefix = false → HasPrefix b rtpmapPrefix = false →
      HasPrefix b fmtpPrefix = false → HasPrefix b controlPrefix = false →
      parseLines [b] = ({ MediaDescList := [] }, none)) := by
  refine ⟨fun hp => ?_, fun hp => ?_, fun hp => ?_, fun hp => ?_, fun h0 h1 h2 h3 => ?_⟩
  · simp only [parseLines, loop_cons, loopBody_m _ b hp, loop_nil]
    rfl
  · simp only [parseLines, loop_cons, loopBody_rtpmap _ b hp]
    cases ParseARtpMap b <;> rfl
  · simp only [parseLines, loop_cons, loopBody_fmtp _ b hp]
    cases ParseAFmtPBase b <;> rfl
  · simp only [parseLines, loop_cons, loopBody_control _ b hp]
    cases ParseAControl b <;> rfl
  · simp only [parseLines, loop_cons, loopBody_other _ b h0 h1 h2 h3, loop_nil]
    rfl

/-- C16: only `\r\n` delimits lines.  A text without `\r\n` is a single
line, so the result has at most one media description, and whatever follows a
bare `\n` is not parsed as a line of its own: a text beginning with `m=`
yields, without error, exactly one description whose `Media` is the first
space-delimited field and whose `ARtpMap`, `AFmtPBase` and `AControl` are
unset; a text beginning with an attribute prefix is handed whole to that
sub-parser and yields no description; any other text yields nothing.  So
`m=video 0 RTP/AVP 96\na=rtpmap:96 H264/90000` gives one description with
`Media = "video"`, a zero `ARtpMap` and no `AFmtPBase`. -/
theorem C16_only_crlf_delimits (b : Str) (h : ¬ crlf <:+: b) :
    Split b crlf = [b] ∧
    (ParseSdp2RawContext b).1.MediaDescList.length ≤ 1 ∧
    (HasPrefix b mPrefix = true →
      ParseSdp2RawContext b =
        ({ MediaDescList :=
            [{ M := { Media := mediaField b },
               ARtpMap := { PayloadType := 0, EncodingName := [], ClockRate := 0,
                            EncodingParameters := [] },
               AFmtPBase := none,
               AControl := { Value := [] } }] }, none)) ∧
    (HasPrefix b rtpmapPrefix = true →
      ParseSdp2RawContext b = ({ MediaDescList := [] }, errOf (ParseARtpMap b))) ∧
    (HasPrefix b fmtpPrefix = true →
      ParseSdp2RawContext b = ({ MediaDescList := [] }, errOf (ParseAFmtPBase b))) ∧
    (HasPrefix b controlPrefix = true →
      ParseSdp2RawContext b = ({ MediaDescList := [] }, errOf (ParseAControl b))) ∧
    (HasPrefix b mPrefix = false → HasPrefix b rtpmapPrefix = false →
      HasPrefix b fmtpPrefix = false → HasPrefix b controlPrefix = false →
      ParseSdp2RawContext b = ({ MediaDescList := [] }, none)) ∧
    ParseSdp2RawContext "m=video 0 RTP/AVP 96\na=rtpmap:96 H264/90000".toList =
      ({ MediaDescList :=
          [{ M := { Media := "video".toList },
             ARtpMap := { PayloadType := 0, EncodingName := [], ClockRate := 0,
                          EncodingParameters := [] },
             AFmtPBase := none,
             AControl := { Value := [] } }] }, none) := by
  have hs := Split_of_no_crlf b h
  have hp : ParseSdp2RawContext b = parseLines [b] := by
    unfold ParseSdp2RawContext; rw [hs]
  obtain ⟨k0, k1, k2, k3, k4⟩ := parseLines_single b
  rw [hp]
  exact ⟨hs, parseLines_single_length b, k0, k1, k2, k3, k4, by decide⟩

/-- C16 on texts whose only line breaks are bare `\n`: the `a=control` and
`a=rtpmap` text after the break never reaches the description. -/
theorem C16_witness :
    Split "m=video 0\na=rtpmap:96 H264/90000\nm=audio 0".toList crlf =
      ["m=video 0\na=rtpmap:96 H264/90000\nm=audio 0".toList] ∧
    (ParseSdp2RawContext
      "m=video 0\na=rtpmap:96 H264/90000\nm=audio 0".toList).1.MediaDescList.length ≤ 1 ∧
    ParseSdp2RawContext "m=video 0\na=control:streamid=0".toList =
      ({ MediaDescList :=
          [{ M := { Media := "video".toList },
             ARtpMap := { PayloadType := 0, EncodingName := [], ClockRate := 0,
                          EncodingParameters := [] },
             AFmtPBase := none,
             AControl := { Value := [] } }] }, none) :=
  ⟨(C16_only_crlf_delimits "m=video 0\na=rtpmap:96 H264/90000\nm=audio 0".toList
      (by decide)).1,
   (C16_only_crlf_delimits "m=video 0\na=rtpmap:96 H264/90000\nm=audio 0".toList
      (by decide)).2.1,
   (C16_only_crlf_delimits "m=video 0\na=control:streamid=0".toList
      (by decide)).2.2.1 (by decide)⟩


/-! ## Media blocks are parsed independently -/

theorem flush_addCtx (p : List MediaDesc) (st : LoopState) :
    flush (addCtx p st) = { MediaDescList := p ++ (flush st).MediaDescList } := by
  cases st with
  | mk ctx md =>
    cases md with
    | none => rfl
    | some d => simp [flush, addCtx]

/-- Descriptions already completed do not influence a successful step. -/
theorem loopBody_addCtx (p : List MediaDesc) {st st1 : LoopState} {line : Str}
    (h : loopBody st line = .ok st1) :
    loopBody (addCtx p st) line = .ok (addCtx p st1) := by
  rcases line_cases line with hm | hr | hf | hcn | ⟨h0, h1, h2, h3⟩
  · rw [loopBody_m st line hm] at h
    cases h
    rw [loopBody_m _ line hm, flush_addCtx]
    rfl
  · rw [loopBody_rtpmap st line hr] at h
    rw [loopBody_rtpmap _ line hr]
    cases hq : ParseARtpMap line with
    | error e => rw [hq] at h; cases h
    | ok v => rw [hq] at h; cases h; rfl
  · rw [loopBody_fmtp st line hf] at h
    rw [loopBody_fmtp _ line hf]
    cases hq : ParseAFmtPBase line with
    | error e => rw [hq] at h; cases h
    | ok v => rw [hq] at h; cases h; rfl
  · rw [loopBody_control st line hcn] at h
    rw [loopBody_control _ line hcn]
    cases hq : ParseAControl line with
    | error e => rw [hq] at h; cases h
    | ok v => rw [hq] at h; cases h; rfl
  · rw [loopBody_other st line h0 h1 h2 h3] at h
    cases h
    exact loopBody_other _ line h0 h1 h2 h3

theorem loop_addCtx (p : List MediaDesc) {lines : List Str} {st st1 : LoopState}
    (h : loop st lines = .ok st1) :
    loop (addCtx p st) lines = .ok (addCtx p st1) := by
  induction lines generalizing st with
  | nil => cases h; rfl
  | cons x xs ih =>
    rw [loop_cons] at h
    cases hx : loopBody st x with
    | error r => rw [hx] at h; cases h
    | ok st0 =>
      rw [hx] at h
      rw [loop_cons, loopBody_addCtx p hx]
      exact ih h

/-- The first line of the split of a text beginning with `m=` begins with `m=`. -/
theorem Split_head_m (m0 : Str) (hm : HasPrefix m0 mPrefix = true) :
    ∃ l t, Split m0 crlf = l :: t ∧ HasPrefix l mPrefix = true := by
  match m0, hm with
  | [], hm => simp [HasPrefix, mPrefix] at hm
  | [_], hm => simp [HasPrefix, mPrefix, List.isPrefixOf] at hm
  | c0 :: c1 :: t, hm =>
    simp only [HasPrefix, mPrefix, String.toList, List.isPrefixOf, Bool.and_eq_true,
      beq_iff_eq] at hm
    obtain ⟨e0, e1, _⟩ := hm
    subst e0 e1
    unfold Split
    simp only [List.length_cons, genSplit]
    cases hi : Index ('m' :: '=' :: t) crlf with
    | none => exact ⟨_, [], rfl, by simp [HasPrefix, mPrefix, List.isPrefixOf]⟩
    | some k =>
      refine ⟨_, _, rfl, ?_⟩
      have h1 : HasPrefix ('m' :: '=' :: t) crlf = false := by
        simp [HasPrefix, crlf, List.isPrefixOf]
      have h2 : HasPrefix ('=' :: t) crlf = false := by
        simp [HasPrefix, crlf, List.isPrefixOf]
      simp only [Index, h1, h2, Bool.false_eq_true, if_false] at hi
      cases hj : Index t crlf with
      | none => rw [hj] at hi; cases hi
      | some j =>
        rw [hj] at hi
        simp only [Option.map_some', Option.some.injEq] at hi
        subst hi
        simp [HasPrefix, mPrefix, List.isPrefixOf]

/-- Parsing lines `LA` then lines that start with an `m=` line. -/
theorem parseLines_append_m (LA LB : List Str) (m0 : Str) (rA rB : RawContext)
    (hm : HasPrefix m0 mPrefix = true)
    (hA : parseLines LA = (rA, none)) (hB : parseLines (m0 :: LB) = (rB, none)) :
    parseLines (LA ++ m0 :: LB) =
      ({ MediaDescList := rA.MediaDescList ++ rB.MediaDescList }, none) := by
  obtain ⟨stA, hlA, hfA⟩ := parseLines_ok hA
  obtain ⟨stB, hlB, hfB⟩ := parseLines_ok hB
  rw [loop_cons, loopBody_m _ m0 hm] at hlB
  have hrun := loop_addCtx rA.MediaDescList hlB
  have hstep : loopBody stA m0 =
      .ok (addCtx rA.MediaDescList
        { sdpCtx := flush { sdpCtx := { MediaDescList := [] }, md := none },
          md := some (newMediaDesc { Media := mediaField m0 }) }) := by
    rw [loopBody_m stA m0 hm, hfA]
    simp [addCtx, flush]
  have hall : loop { sdpCtx := { MediaDescList := [] }, md := none } (LA ++ m0 :: LB) =
      .ok (addCtx rA.MediaDescList stB) := by
    rw [loop_append, hlA]
    simp only [loop_cons, hstep]
    exact hrun
  rw [parseLines_of_ok hall, flush_addCtx, hfB]

/-- C18: media blocks are parsed independently.  When `B` starts with an
`m=` line and both the `\r\n`-join of `A` and the `\r\n`-join of `B` parse,
the `\r\n`-join of `A ++ B` parses, and its `MediaDescList` is the
concatenation of the two lists. -/
theorem C18_blocks_independent (A rest : List Str) (m0 : Str) (rA rB : RawContext)
    (hm : HasPrefix m0 mPrefix = true)
    (hA : ParseSdp2RawContext (joinCrlf A) = (rA, none))
    (hB : ParseSdp2RawContext (joinCrlf (m0 :: rest)) = (rB, none)) :
    ParseSdp2RawContext (joinCrlf (A ++ m0 :: rest)) =
      ({ MediaDescList := rA.MediaDescList ++ rB.MediaDescList }, none) := by
  by_cases hAe : A = []
  · subst hAe
    have e : ParseSdp2RawContext (joinCrlf []) = ({ MediaDescList := [] }, none) := by decide
    rw [e] at hA
    cases hA
    simpa using hB
  · unfold ParseSdp2RawContext at hA hB ⊢
    rw [Split_joinCrlf A hAe] at hA
    rw [Split_joinCrlf (m0 :: rest) (List.cons_ne_nil _ _), List.flatMap_cons] at hB
    rw [Split_joinCrlf (A ++ m0 :: rest) (by simp), List.flatMap_append, List.flatMap_cons]
    obtain ⟨l, t, hs, hl⟩ := Split_head_m m0 hm
    rw [hs, List.cons_append] at hB ⊢
    exact parseLines_append_m _ _ l rA rB hl hA hB

/-- C18 on a video block followed by an audio block. -/
theorem C18_witness :
    ParseSdp2RawContext (joinCrlf (["v=0".toList, "m=video 0".toList,
        "a=rtpmap:96 H264/90000".toList] ++ "m=audio 0".toList :: ["a=control:x".toList])) =
      ({ MediaDescList :=
          (ParseSdp2RawContext (joinCrlf ["v=0".toList, "m=video 0".toList,
            "a=rtpmap:96 H264/90000".toList])).1.MediaDescList ++
          (ParseSdp2RawContext (joinCrlf ("m=audio 0".toList ::
            ["a=control:x".toList]))).1.MediaDescList }, none) :=
  C18_blocks_independent _ _ "m=audio 0".toList _ _ (by decide) (by decide) (by decide)

end Sdp
